import Mathlib

/-!
Verification of the kilter.protocol core: a shallow embedding of the Milter
wire-protocol codec (`Message.pack` / `Message.unpack`), the `SimpleBuffer`
byte buffer and the `FilterProtocol` session state machine, together with
proofs of the specified properties.

The Python sources of `kilter/protocol` itself (messages.py, buffer.py,
core.py) are not part of the available source tree; only their test suite is.
The definitions below are therefore modelled from the specification document,
with the behaviour cross-checked against the test suite
(tests/test_messages.py, tests/test_simple_buffer.py,
tests/test_core_filter_protocol.py), which is treated as authoritative
wherever it pins a behaviour down.

Bytes are modelled as natural numbers (meaningful values are `< 256`);
byte strings as `List Nat`.
-/

namespace Kilter

/-- Big-endian value of four bytes. -/
def beToNat4 (a b c d : Nat) : Nat := ((a * 256 + b) * 256 + c) * 256 + d

/-- Big-endian 4-byte encoding of a `u32`. -/
def beBytes4 (n : Nat) : List Nat :=
  [n / 2 ^ 24 % 256, n / 2 ^ 16 % 256, n / 2 ^ 8 % 256, n % 256]

/-- Big-endian value of two bytes. -/
def beToNat2 (a b : Nat) : Nat := a * 256 + b

/-- Big-endian 2-byte encoding of a `u16`. -/
def beBytes2 (n : Nat) : List Nat := [n / 2 ^ 8 % 256, n % 256]

theorem beToNat4_beBytes4 (n : Nat) (h : n < 2 ^ 32) :
    beToNat4 (n / 2 ^ 24 % 256) (n / 2 ^ 16 % 256) (n / 2 ^ 8 % 256) (n % 256) = n := by
  unfold beToNat4
  omega

theorem beBytes4_beToNat4 (a b c d : Nat)
    (ha : a < 256) (hb : b < 256) (hc : c < 256) (hd : d < 256) :
    beBytes4 (beToNat4 a b c d) = [a, b, c, d] := by
  simp only [beBytes4, beToNat4, List.cons.injEq, and_true]
  refine ⟨?_, ?_, ?_, ?_⟩ <;> omega

theorem beToNat4_lt (a b c d : Nat)
    (ha : a < 256) (hb : b < 256) (hc : c < 256) (hd : d < 256) :
    beToNat4 a b c d < 2 ^ 32 := by
  unfold beToNat4
  omega

theorem beBytes2_beToNat2 (a b : Nat) (ha : a < 256) (hb : b < 256) :
    beBytes2 (beToNat2 a b) = [a, b] := by
  simp only [beBytes2, beToNat2, List.cons.injEq, and_true]
  constructor <;> omega

theorem beToNat2_beBytes2 (n : Nat) (h : n < 2 ^ 16) :
    ∃ a b, beBytes2 n = [a, b] ∧ a < 256 ∧ b < 256 ∧ beToNat2 a b = n := by
  refine ⟨n / 2 ^ 8 % 256, n % 256, rfl, by omega, by omega, ?_⟩
  unfold beToNat2
  omega

/-- Parse a NUL-terminated string: the bytes before the first NUL,
together with the rest of the input after the NUL. -/
def takeCStr : List Nat → Option (List Nat × List Nat)
  | [] => none
  | 0 :: rest => some ([], rest)
  | c :: rest =>
    match takeCStr rest with
    | none => none
    | some (s, r) => some (c :: s, r)

theorem takeCStr_sound : ∀ {l s r : List Nat},
    takeCStr l = some (s, r) → l = s ++ 0 :: r ∧ 0 ∉ s := by
  intro l
  induction l with
  | nil => intro s r h; simp [takeCStr] at h
  | cons c rest ih =>
    intro s r h
    match c with
    | 0 =>
      simp [takeCStr] at h
      simp [h.1, h.2]
    | c + 1 =>
      revert h
      simp only [takeCStr]
      match hrec : takeCStr rest with
      | none => intro h; simp at h
      | some (s', r') =>
        intro h
        simp only [Option.some.injEq, Prod.mk.injEq] at h
        obtain ⟨hs, hr⟩ := h
        obtain ⟨he, hn⟩ := ih hrec
        subst hs hr
        constructor
        · simp [he]
        · simp only [List.mem_cons, not_or]
          exact ⟨by omega, hn⟩

theorem takeCStr_complete {s : List Nat} (hs : 0 ∉ s) (r : List Nat) :
    takeCStr (s ++ 0 :: r) = some (s, r) := by
  induction s with
  | nil => simp [takeCStr]
  | cons c cs ih =>
    simp only [List.mem_cons, not_or] at hs
    have hrec := ih hs.2
    match hc : c with
    | 0 => exact absurd rfl hs.1
    | c' + 1 => simp [takeCStr, hrec]

/-- Parse a big-endian `u32` from the head of the input. -/
def takeU32 : List Nat → Option (Nat × List Nat)
  | a :: b :: c :: d :: rest => some (beToNat4 a b c d, rest)
  | _ => none

theorem takeU32_sound : ∀ {l : List Nat} {n : Nat} {r : List Nat},
    takeU32 l = some (n, r) →
    ∃ a b c d, l = a :: b :: c :: d :: r ∧ n = beToNat4 a b c d := by
  intro l n r h
  match l with
  | a :: b :: c :: d :: rest =>
    simp only [takeU32, Option.some.injEq, Prod.mk.injEq] at h
    exact ⟨a, b, c, d, by simp [h.1.symm, h.2.symm], h.1.symm⟩

theorem takeU32_complete (n : Nat) (hn : n < 2 ^ 32) (r : List Nat) :
    takeU32 (beBytes4 n ++ r) = some (n, r) := by
  have h := beToNat4_beBytes4 n hn
  simp only [beBytes4, List.cons_append, List.nil_append, takeU32]
  rw [h]

/-- Parse a big-endian `u16` from the head of the input. -/
def takeU16 : List Nat → Option (Nat × List Nat)
  | a :: b :: rest => some (beToNat2 a b, rest)
  | _ => none

theorem takeU16_sound : ∀ {l : List Nat} {n : Nat} {r : List Nat},
    takeU16 l = some (n, r) →
    ∃ a b, l = a :: b :: r ∧ n = beToNat2 a b := by
  intro l n r h
  match l with
  | a :: b :: rest =>
    simp only [takeU16, Option.some.injEq, Prod.mk.injEq] at h
    exact ⟨a, b, by simp [h.1.symm, h.2.symm], h.1.symm⟩

theorem takeU16_complete (n : Nat) (hn : n < 2 ^ 16) (r : List Nat) :
    takeU16 (beBytes2 n ++ r) = some (n, r) := by
  obtain ⟨a, b, he, _, _, hv⟩ := beToNat2_beBytes2 n hn
  rw [he]
  simp [takeU16, hv]

/-- Serialise a list of strings as concatenated NUL-terminated strings. -/
def joinCStrs : List (List Nat) → List Nat
  | [] => []
  | s :: ss => s ++ 0 :: joinCStrs ss

/-- Parse zero or more NUL-terminated strings until the input is exhausted
(fuel-indexed helper; `fuel ≥ input length` always suffices). -/
def takeCStrsF : Nat → List Nat → Option (List (List Nat))
  | _, [] => some []
  | 0, _ :: _ => none
  | fuel + 1, c :: rest =>
    (takeCStr (c :: rest)).bind fun sr => (takeCStrsF fuel sr.2).map (sr.1 :: ·)

/-- Parse zero or more NUL-terminated strings until the input is exhausted. -/
def takeCStrs (l : List Nat) : Option (List (List Nat)) := takeCStrsF l.length l

theorem takeCStrsF_nil (fuel : Nat) : takeCStrsF fuel [] = some [] := by
  cases fuel <;> rfl

theorem takeCStrsF_succ (fuel : Nat) (l : List Nat) (h : l ≠ []) :
    takeCStrsF (fuel + 1) l =
      (takeCStr l).bind fun sr => (takeCStrsF fuel sr.2).map (sr.1 :: ·) := by
  match l with
  | [] => exact absurd rfl h
  | c :: rest => rfl

theorem takeCStrsF_sound : ∀ (fuel : Nat) {l : List Nat} {ss : List (List Nat)},
    takeCStrsF fuel l = some ss → l = joinCStrs ss ∧ ∀ s ∈ ss, 0 ∉ s := by
  intro fuel
  induction fuel with
  | zero =>
    intro l ss h
    match l with
    | [] =>
      rw [takeCStrsF_nil] at h
      obtain rfl : ([] : List (List Nat)) = ss := Option.some.inj h
      simp [joinCStrs]
    | _ :: _ => simp [takeCStrsF] at h
  | succ f ih =>
    intro l ss h
    match l with
    | [] =>
      rw [takeCStrsF_nil] at h
      obtain rfl : ([] : List (List Nat)) = ss := Option.some.inj h
      simp [joinCStrs]
    | c :: rest =>
      rw [takeCStrsF_succ f _ (by simp)] at h
      match hc : takeCStr (c :: rest) with
      | none => rw [hc] at h; simp at h
      | some (s, r) =>
        rw [hc] at h
        simp only [Option.some_bind, Option.map_eq_some'] at h
        obtain ⟨ss', hrec, rfl⟩ := h
        obtain ⟨he, hn⟩ := takeCStr_sound hc
        obtain ⟨he', hn'⟩ := ih hrec
        refine ⟨by rw [joinCStrs, ← he', he], ?_⟩
        intro t ht
        rcases List.mem_cons.mp ht with h1 | h2
        · exact h1 ▸ hn
        · exact hn' t h2

theorem takeCStrsF_complete : ∀ (ss : List (List Nat)) (fuel : Nat),
    (∀ s ∈ ss, 0 ∉ s) → (joinCStrs ss).length ≤ fuel →
    takeCStrsF fuel (joinCStrs ss) = some ss := by
  intro ss
  induction ss with
  | nil => intro fuel _ _; exact takeCStrsF_nil fuel
  | cons s ss ih =>
    intro fuel hnul hlen
    have hs : 0 ∉ s := hnul s (by simp)
    have hss : ∀ t ∈ ss, 0 ∉ t := fun t ht => hnul t (by simp [ht])
    rw [joinCStrs] at hlen ⊢
    match fuel with
    | 0 => simp at hlen
    | f + 1 =>
      have hjoin : (joinCStrs ss).length ≤ f := by
        simp at hlen; omega
      rw [takeCStrsF_succ f _ (by simp), takeCStr_complete hs, Option.some_bind,
        ih f hss hjoin, Option.map_some']

theorem takeCStrs_complete (ss : List (List Nat)) (h : ∀ s ∈ ss, 0 ∉ s) :
    takeCStrs (joinCStrs ss) = some ss :=
  takeCStrsF_complete ss _ h le_rfl

/-- Serialise macro name/value pairs as alternating NUL-terminated strings. -/
def joinPairs : List (List Nat × List Nat) → List Nat
  | [] => []
  | (n, v) :: ps => n ++ 0 :: (v ++ 0 :: joinPairs ps)

/-- Parse macro name/value pairs until the input is exhausted (fuel-indexed). -/
def takePairsF : Nat → List Nat → Option (List (List Nat × List Nat))
  | _, [] => some []
  | 0, _ :: _ => none
  | fuel + 1, c :: rest =>
    (takeCStr (c :: rest)).bind fun nr =>
      (takeCStr nr.2).bind fun vr =>
        (takePairsF fuel vr.2).map ((nr.1, vr.1) :: ·)

/-- Parse macro name/value pairs until the input is exhausted. -/
def takePairs (l : List Nat) : Option (List (List Nat × List Nat)) :=
  takePairsF l.length l

theorem takePairsF_nil (fuel : Nat) : takePairsF fuel [] = some [] := by
  cases fuel <;> rfl

theorem takePairsF_succ (fuel : Nat) (l : List Nat) (h : l ≠ []) :
    takePairsF (fuel + 1) l =
      (takeCStr l).bind fun nr =>
        (takeCStr nr.2).bind fun vr =>
          (takePairsF fuel vr.2).map ((nr.1, vr.1) :: ·) := by
  match l with
  | [] => exact absurd rfl h
  | c :: rest => rfl

theorem takePairsF_sound : ∀ (fuel : Nat) {l : List Nat}
    {ps : List (List Nat × List Nat)},
    takePairsF fuel l = some ps →
    l = joinPairs ps ∧ ∀ p ∈ ps, 0 ∉ p.1 ∧ 0 ∉ p.2 := by
  intro fuel
  induction fuel with
  | zero =>
    intro l ps h
    match l with
    | [] =>
      rw [takePairsF_nil] at h
      obtain rfl : ([] : List (List Nat × List Nat)) = ps := Option.some.inj h
      simp [joinPairs]
    | _ :: _ => simp [takePairsF] at h
  | succ f ih =>
    intro l ps h
    match l with
    | [] =>
      rw [takePairsF_nil] at h
      obtain rfl : ([] : List (List Nat × List Nat)) = ps := Option.some.inj h
      simp [joinPairs]
    | c :: rest =>
      rw [takePairsF_succ f _ (by simp)] at h
      match hc : takeCStr (c :: rest) with
      | none => rw [hc] at h; simp at h
      | some (n, r1) =>
        rw [hc] at h
        simp only [Option.some_bind] at h
        match hc2 : takeCStr r1 with
        | none => rw [hc2] at h; simp at h
        | some (v, r2) =>
          rw [hc2] at h
          simp only [Option.some_bind, Option.map_eq_some'] at h
          obtain ⟨ps', hrec, rfl⟩ := h
          obtain ⟨he1, hn1⟩ := takeCStr_sound hc
          obtain ⟨he2, hn2⟩ := takeCStr_sound hc2
          obtain ⟨he3, hn3⟩ := ih hrec
          refine ⟨by rw [joinPairs, ← he3, ← he2, he1], ?_⟩
          intro p hp
          rcases List.mem_cons.mp hp with h1 | h2
          · exact h1 ▸ ⟨hn1, hn2⟩
          · exact hn3 p h2

theorem takePairsF_complete : ∀ (ps : List (List Nat × List Nat)) (fuel : Nat),
    (∀ p ∈ ps, 0 ∉ p.1 ∧ 0 ∉ p.2) → (joinPairs ps).length ≤ fuel →
    takePairsF fuel (joinPairs ps) = some ps := by
  intro ps
  induction ps with
  | nil => intro fuel _ _; exact takePairsF_nil fuel
  | cons p ps ih =>
    intro fuel hnul hlen
    obtain ⟨n, v⟩ := p
    have hp := hnul (n, v) (by simp)
    have hps : ∀ q ∈ ps, 0 ∉ q.1 ∧ 0 ∉ q.2 := fun q hq => hnul q (by simp [hq])
    rw [joinPairs] at hlen ⊢
    match fuel with
    | 0 => simp at hlen
    | f + 1 =>
      have hjoin : (joinPairs ps).length ≤ f := by
        simp at hlen; omega
      rw [takePairsF_succ f _ (by simp), takeCStr_complete hp.1, Option.some_bind,
        takeCStr_complete hp.2, Option.some_bind, ih f hps hjoin, Option.map_some']

theorem takePairs_complete (ps : List (List Nat × List Nat))
    (h : ∀ p ∈ ps, 0 ∉ p.1 ∧ 0 ∉ p.2) :
    takePairs (joinPairs ps) = some ps :=
  takePairsF_complete ps _ h le_rfl


/-- Little-endian base-10 digits of a natural number (fuel-indexed helper). -/
def natDigitsF : Nat → Nat → List Nat
  | _, 0 => []
  | 0, _ + 1 => []
  | f + 1, n + 1 => (n + 1) % 10 :: natDigitsF f ((n + 1) / 10)

/-- Little-endian base-10 digits of a natural number (empty for zero). -/
def natDigits (n : Nat) : List Nat := natDigitsF n n

/-- Value of a little-endian base-10 digit list. -/
def digitsVal : List Nat → Nat
  | [] => 0
  | d :: ds => d + 10 * digitsVal ds

theorem natDigitsF_zero (f : Nat) : natDigitsF f 0 = [] := by
  cases f <;> rfl

theorem digitsVal_natDigitsF : ∀ (f n : Nat), n ≤ f →
    digitsVal (natDigitsF f n) = n := by
  intro f
  induction f with
  | zero =>
    intro n hn
    obtain rfl : n = 0 := Nat.le_zero.mp hn
    rfl
  | succ f ih =>
    intro n hn
    match n with
    | 0 => rw [natDigitsF_zero]; rfl
    | m + 1 =>
      have hdiv : (m + 1) / 10 ≤ f := by
        have h2 : (m + 1) / 10 < m + 1 := Nat.div_lt_self (Nat.succ_pos m) (by norm_num)
        omega
      rw [natDigitsF, digitsVal, ih _ hdiv]
      omega

theorem digitsVal_natDigits (n : Nat) : digitsVal (natDigits n) = n :=
  digitsVal_natDigitsF n n le_rfl

theorem natDigitsF_lt : ∀ (f n d : Nat), d ∈ natDigitsF f n → d < 10 := by
  intro f
  induction f with
  | zero =>
    intro n d hd
    match n with
    | 0 => simp [natDigitsF] at hd
    | _ + 1 => simp [natDigitsF] at hd
  | succ f ih =>
    intro n d hd
    match n with
    | 0 => simp [natDigitsF] at hd
    | m + 1 =>
      rw [natDigitsF] at hd
      rcases List.mem_cons.mp hd with h1 | h2
      · omega
      · exact ih _ d h2

/-- The bytes of the decimal representation of one codepoint
(ASCII digits `0x30`-`0x39`, little-endian). -/
def digitBytes (c : Nat) : List Nat := (natDigits c).map (fun d => d + 0x30)

/-- The ASCII bytes of the prefix marking an encoded hostname label
(the letters of "xn--"). -/
def xnTag : List Nat := [0x78, 0x6e, 0x2d, 0x2d]

/-- Whether a byte string starts with the encoded-hostname marker. -/
def startsWithXn : List Nat → Bool
  | a :: b :: c :: d :: _ => a == 0x78 && b == 0x6e && c == 0x2d && d == 0x2d
  | _ => false

/-- Whether all codepoints or bytes in the list are ASCII. -/
def allAscii (l : List Nat) : Bool := l.all (· < 0x80)

/-- Encode a codepoint list as dash-terminated decimal digit groups. -/
def encodeGroups : List Nat → List Nat
  | [] => []
  | c :: cs => digitBytes c ++ 0x2d :: encodeGroups cs

/-- Parse dash-terminated decimal digit groups back into a codepoint list
(fuel-indexed helper). -/
def parseGroupsF : Nat → List Nat → Option (List Nat)
  | _, [] => some []
  | 0, _ :: _ => none
  | f + 1, c :: rest =>
    match (c :: rest).dropWhile (· != 0x2d) with
    | [] => none
    | _ :: rest2 =>
      (parseGroupsF f rest2).map
        (digitsVal (((c :: rest).takeWhile (· != 0x2d)).map (· - 0x30)) :: ·)

/-- Parse dash-terminated decimal digit groups back into a codepoint list. -/
def parseGroups (l : List Nat) : Option (List Nat) := parseGroupsF l.length l

/-- Modelled from the spec: "Hostnames use IDNA encoding on the wire; the
decoded form is the unicode name."  The IDNA algorithm itself (RFC 3490/3492)
is external to the repository and is not described by the spec, so it is
modelled abstractly yet executably: an ASCII hostname is its own wire form
(as in real IDNA), and a non-ASCII hostname is encoded as a marker tag
followed by an injective ASCII rendering of its codepoints, with
`idnaDecode` the left inverse. -/
def idnaEncode (h : List Nat) : List Nat :=
  if allAscii h then h else xnTag ++ encodeGroups h

/-- Modelled from the spec: inverse of `idnaEncode`; returns the unicode
hostname of a wire hostname, or `none` for a malformed wire form. -/
def idnaDecode (b : List Nat) : Option (List Nat) :=
  if startsWithXn b then
    match parseGroups (b.drop 4) with
    | none => none
    | some h => if idnaEncode h == b then some h else none
  else if allAscii b then some b else none


theorem takeWhile_dropWhile_append {p : Nat → Bool} :
    ∀ (l1 : List Nat), (∀ x ∈ l1, p x = true) → ∀ {y : Nat}, p y = false →
    ∀ (l2 : List Nat),
    (l1 ++ y :: l2).takeWhile p = l1 ∧ (l1 ++ y :: l2).dropWhile p = y :: l2 := by
  intro l1
  induction l1 with
  | nil =>
    intro _ y hy l2
    simp [List.takeWhile, List.dropWhile, hy]
  | cons a l1 ih =>
    intro h1 y hy l2
    have ha : p a = true := h1 a (by simp)
    have hrest : ∀ x ∈ l1, p x = true := fun x hx => h1 x (by simp [hx])
    obtain ⟨ht, hd⟩ := ih hrest hy l2
    simp [List.takeWhile, List.dropWhile, ha, ht, hd]

theorem digitBytes_ne_dash (c : Nat) : ∀ x ∈ digitBytes c, (x != 0x2d) = true := by
  intro x hx
  simp only [digitBytes, List.mem_map] at hx
  obtain ⟨d, hd, rfl⟩ := hx
  have := natDigitsF_lt c c d hd
  simp only [bne_iff_ne, ne_eq]
  omega

theorem parseGroupsF_nil (f : Nat) : parseGroupsF f [] = some [] := by
  cases f <;> rfl

theorem parseGroupsF_succ (f : Nat) (l : List Nat) (h : l ≠ []) :
    parseGroupsF (f + 1) l =
      match l.dropWhile (· != 0x2d) with
      | [] => none
      | _ :: rest2 =>
        (parseGroupsF f rest2).map
          (digitsVal ((l.takeWhile (· != 0x2d)).map (· - 0x30)) :: ·) := by
  match l with
  | [] => exact absurd rfl h
  | c :: rest => rfl

theorem digitsVal_digitBytes (c : Nat) :
    digitsVal ((digitBytes c).map (· - 0x30)) = c := by
  rw [digitBytes, List.map_map]
  have : ((fun x => x - 0x30) ∘ fun d => d + 0x30) = fun d => d + 0x30 - 0x30 := rfl
  rw [this]
  have : (natDigits c).map (fun d => d + 0x30 - 0x30) = natDigits c := by
    simp
  rw [this]
  exact digitsVal_natDigits c

theorem parseGroupsF_encodeGroups : ∀ (h : List Nat) (f : Nat),
    (encodeGroups h).length ≤ f → parseGroupsF f (encodeGroups h) = some h := by
  intro h
  induction h with
  | nil => intro f _; exact parseGroupsF_nil f
  | cons c cs ih =>
    intro f hlen
    rw [encodeGroups] at hlen ⊢
    match f with
    | 0 => simp at hlen
    | f + 1 =>
      obtain ⟨ht, hd⟩ :=
        takeWhile_dropWhile_append (digitBytes c) (digitBytes_ne_dash c)
          (show ((0x2d : Nat) != 0x2d) = false by simp) (encodeGroups cs)
      have hrec : (encodeGroups cs).length ≤ f := by
        simp at hlen; omega
      rw [parseGroupsF_succ f _ (by simp), hd]
      simp only [ht, ih f hrec, Option.map_some', digitsVal_digitBytes c]

theorem parseGroups_encodeGroups (h : List Nat) :
    parseGroups (encodeGroups h) = some h :=
  parseGroupsF_encodeGroups h _ le_rfl

theorem startsWithXn_xnTag (l : List Nat) : startsWithXn (xnTag ++ l) = true := by
  simp [xnTag, startsWithXn]

theorem idnaEncode_ascii {h : List Nat} (ha : allAscii h = true) :
    idnaEncode h = h := by
  simp [idnaEncode, ha]

theorem idnaDecode_idnaEncode (h : List Nat)
    (hxn : allAscii h = true → startsWithXn h = false) :
    idnaDecode (idnaEncode h) = some h := by
  match ha : allAscii h with
  | true =>
    rw [idnaEncode_ascii ha, idnaDecode, hxn ha]
    simp [ha]
  | false =>
    have he : idnaEncode h = xnTag ++ encodeGroups h := by
      simp [idnaEncode, ha]
    rw [he, idnaDecode]
    simp only [startsWithXn_xnTag, if_true]
    have hdrop : (xnTag ++ encodeGroups h).drop 4 = encodeGroups h := by
      simp [xnTag]
    rw [hdrop, parseGroups_encodeGroups, ← he]
    simp

theorem idnaDecode_sound {b h : List Nat} (hd : idnaDecode b = some h) :
    idnaEncode h = b := by
  rw [idnaDecode] at hd
  match hs : startsWithXn b with
  | true =>
    rw [hs] at hd
    simp only [if_true] at hd
    match hp : parseGroups (b.drop 4) with
    | none => rw [hp] at hd; simp at hd
    | some h' =>
      rw [hp] at hd
      by_cases hc : idnaEncode h' == b
      · simp only [hc, if_true, Option.some.injEq] at hd
        subst hd
        exact beq_iff_eq.mp hc
      · simp [hc] at hd
  | false =>
    rw [hs] at hd
    simp only [Bool.false_eq_true, if_false] at hd
    match ha : allAscii b with
    | true =>
      rw [ha] at hd
      simp only [if_true, Option.some.injEq] at hd
      subst hd
      exact idnaEncode_ascii ha
    | false => rw [ha] at hd; simp at hd

theorem encodeGroups_mem {h : List Nat} :
    ∀ x ∈ encodeGroups h, 0x2d ≤ x ∧ x ≤ 0x39 := by
  induction h with
  | nil => intro x hx; simp [encodeGroups] at hx
  | cons c cs ih =>
    intro x hx
    rw [encodeGroups] at hx
    rcases List.mem_append.mp hx with h1 | h2
    · simp only [digitBytes, List.mem_map] at h1
      obtain ⟨d, hd, rfl⟩ := h1
      have := natDigitsF_lt c c d hd
      omega
    · rcases List.mem_cons.mp h2 with h3 | h4
      · omega
      · exact ih x h4

theorem idnaEncode_mem {h : List Nat} (hpos : ∀ c ∈ h, 0 < c) :
    ∀ x ∈ idnaEncode h, 0 < x ∧ x < 256 := by
  intro x hx
  rw [idnaEncode] at hx
  match ha : allAscii h with
  | true =>
    rw [ha] at hx
    simp only [if_true] at hx
    have h1 := hpos x hx
    have h2 : x < 0x80 := by
      have := List.all_eq_true.mp ha x hx
      simpa using this
    omega
  | false =>
    rw [ha] at hx
    simp only [Bool.false_eq_true, if_false] at hx
    rcases List.mem_append.mp hx with h1 | h2
    · simp only [xnTag, List.mem_cons, List.not_mem_nil, or_false] at h1
      rcases h1 with rfl | rfl | rfl | rfl <;> omega
    · have := encodeGroups_mem x h2
      omega

theorem idnaEncode_not_nul {h : List Nat} (hpos : ∀ c ∈ h, 0 < c) :
    0 ∉ idnaEncode h := by
  intro hmem
  have := idnaEncode_mem hpos 0 hmem
  omega

/-- Serialise the Negotiate macro-stage map: for each stage a big-endian
`u32` stage number then a NUL-terminated symbol string. -/
def joinStages : List (Nat × List Nat) → List Nat
  | [] => []
  | (st, sym) :: ms => beBytes4 st ++ (sym ++ 0 :: joinStages ms)

/-- Parse Negotiate macro-stage entries until the input is exhausted
(fuel-indexed). -/
def takeStagesF : Nat → List Nat → Option (List (Nat × List Nat))
  | _, [] => some []
  | 0, _ :: _ => none
  | fuel + 1, c :: rest =>
    (takeU32 (c :: rest)).bind fun sr =>
      (takeCStr sr.2).bind fun yr =>
        (takeStagesF fuel yr.2).map ((sr.1, yr.1) :: ·)

/-- Parse Negotiate macro-stage entries until the input is exhausted. -/
def takeStages (l : List Nat) : Option (List (Nat × List Nat)) :=
  takeStagesF l.length l

theorem takeStagesF_nil (fuel : Nat) : takeStagesF fuel [] = some [] := by
  cases fuel <;> rfl

theorem takeStagesF_succ (fuel : Nat) (l : List Nat) (h : l ≠ []) :
    takeStagesF (fuel + 1) l =
      (takeU32 l).bind fun sr =>
        (takeCStr sr.2).bind fun yr =>
          (takeStagesF fuel yr.2).map ((sr.1, yr.1) :: ·) := by
  match l with
  | [] => exact absurd rfl h
  | c :: rest => rfl

theorem takeStagesF_sound : ∀ (fuel : Nat) {l : List Nat}
    {ms : List (Nat × List Nat)},
    (∀ x ∈ l, x < 256) → takeStagesF fuel l = some ms →
    l = joinStages ms ∧ ∀ p ∈ ms, p.1 < 2 ^ 32 ∧ 0 ∉ p.2 := by
  intro fuel
  induction fuel with
  | zero =>
    intro l ms _ h
    match l with
    | [] =>
      rw [takeStagesF_nil] at h
      obtain rfl : ([] : List (Nat × List Nat)) = ms := Option.some.inj h
      simp [joinStages]
    | _ :: _ => simp [takeStagesF] at h
  | succ f ih =>
    intro l ms hbytes h
    match l with
    | [] =>
      rw [takeStagesF_nil] at h
      obtain rfl : ([] : List (Nat × List Nat)) = ms := Option.some.inj h
      simp [joinStages]
    | c :: rest =>
      rw [takeStagesF_succ f _ (by simp)] at h
      match hc : takeU32 (c :: rest) with
      | none => rw [hc] at h; simp at h
      | some (st, r1) =>
        rw [hc] at h
        simp only [Option.some_bind] at h
        match hc2 : takeCStr r1 with
        | none => rw [hc2] at h; simp at h
        | some (sym, r2) =>
          rw [hc2] at h
          simp only [Option.some_bind, Option.map_eq_some'] at h
          obtain ⟨ms', hrec, rfl⟩ := h
          obtain ⟨a, b, c', d, he1, hv1⟩ := takeU32_sound hc
          obtain ⟨he2, hn2⟩ := takeCStr_sound hc2
          have ha : a < 256 := hbytes a (by rw [he1]; simp)
          have hb : b < 256 := hbytes b (by rw [he1]; simp)
          have hcc : c' < 256 := hbytes c' (by rw [he1]; simp)
          have hdd : d < 256 := hbytes d (by rw [he1]; simp)
          have hbytes2 : ∀ x ∈ r2, x < 256 := by
            intro x hx
            refine hbytes x ?_
            rw [he1, he2]
            simp [hx]
          obtain ⟨he3, hn3⟩ := ih hbytes2 hrec
          constructor
          · rw [joinStages, ← he3, ← he2, he1, hv1,
              beBytes4_beToNat4 a b c' d ha hb hcc hdd]
            simp
          · intro p hp
            rcases List.mem_cons.mp hp with h1 | h2
            · subst h1
              exact ⟨hv1 ▸ beToNat4_lt a b c' d ha hb hcc hdd, hn2⟩
            · exact hn3 p h2

theorem takeStagesF_complete : ∀ (ms : List (Nat × List Nat)) (fuel : Nat),
    (∀ p ∈ ms, p.1 < 2 ^ 32 ∧ 0 ∉ p.2) → (joinStages ms).length ≤ fuel →
    takeStagesF fuel (joinStages ms) = some ms := by
  intro ms
  induction ms with
  | nil => intro fuel _ _; exact takeStagesF_nil fuel
  | cons p ms ih =>
    intro fuel hok hlen
    obtain ⟨st, sym⟩ := p
    have hp := hok (st, sym) (by simp)
    have hps : ∀ q ∈ ms, q.1 < 2 ^ 32 ∧ 0 ∉ q.2 := fun q hq => hok q (by simp [hq])
    rw [joinStages] at hlen ⊢
    match fuel with
    | 0 =>
      rw [show beBytes4 st ++ (sym ++ 0 :: joinStages ms) =
        (beBytes4 st ++ (sym ++ [0])) ++ joinStages ms by simp] at hlen
      simp [beBytes4] at hlen
    | f + 1 =>
      have hjoin : (joinStages ms).length ≤ f := by
        simp [beBytes4] at hlen ⊢; omega
      have hne : beBytes4 st ++ (sym ++ 0 :: joinStages ms) ≠ [] := by
        simp [beBytes4]
      rw [takeStagesF_succ f _ hne, takeU32_complete st hp.1, Option.some_bind,
        takeCStr_complete hp.2, Option.some_bind, ih f hps hjoin, Option.map_some']

theorem takeStages_complete (ms : List (Nat × List Nat))
    (h : ∀ p ∈ ms, p.1 < 2 ^ 32 ∧ 0 ∉ p.2) :
    takeStages (joinStages ms) = some ms :=
  takeStagesF_complete ms _ h le_rfl


/-- The address carried by a Connect event: none, a Unix socket path, or an
IPv4/IPv6 address in NUL-terminated ASCII textual form. -/
inductive ConnAddr
  | noAddr
  | unix (path : List Nat)
  | ip4 (addr : List Nat)
  | ip6 (addr : List Nat)
deriving DecidableEq

/-- Modelled from the spec: the closed set of typed Milter messages of
kilter.protocol.messages, one constructor per message kind, with the fields
of the payload layouts tabulated in the spec.  Text fields are byte strings
except hostnames, which are unicode codepoint lists (IDNA-encoded by
`pack`). -/
inductive Message
  | negotiate (version actionFlags protocolFlags : Nat)
      (macros : List (Nat × List Nat))
  | macroMsg (stage : Nat) (pairs : List (List Nat × List Nat))
  | connect (hostname : List Nat) (address : ConnAddr) (port : Nat)
  | helo (hostname : List Nat)
  | envelopeFrom (sender : List Nat) (arguments : List (List Nat))
  | envelopeRecipient (recipient : List Nat) (arguments : List (List Nat))
  | dataMsg
  | unknownMsg (content : List Nat)
  | headerMsg (name : List Nat) (value : List Nat)
  | endOfHeaders
  | body (content : List Nat)
  | endOfMessage (content : List Nat)
  | abort
  | close
  | continueMsg
  | reject
  | discard
  | accept
  | temporaryFailure
  | progress
  | skip
  | addHeader (name : List Nat) (value : List Nat)
  | changeHeader (index : Nat) (name : List Nat) (value : List Nat)
  | insertHeader (index : Nat) (name : List Nat) (value : List Nat)
  | changeSender (address : List Nat) (args : Option (List Nat))
  | addRecipient (address : List Nat)
  | addRecipientPar (address : List Nat) (args : Option (List Nat))
  | removeRecipient (address : List Nat)
  | replaceBody (content : List Nat)
  | quarantine (reason : List Nat)
deriving DecidableEq

namespace Message

/-- The identifier byte of each message kind (spec §3 tables). -/
def ident : Message → Nat
  | negotiate .. => 0x4f
  | macroMsg .. => 0x44
  | connect .. => 0x43
  | helo .. => 0x48
  | envelopeFrom .. => 0x4d
  | envelopeRecipient .. => 0x52
  | dataMsg => 0x54
  | unknownMsg .. => 0x55
  | headerMsg .. => 0x4c
  | endOfHeaders => 0x4e
  | body .. => 0x42
  | endOfMessage .. => 0x45
  | abort => 0x41
  | close => 0x51
  | continueMsg => 0x63
  | reject => 0x72
  | discard => 0x64
  | accept => 0x61
  | temporaryFailure => 0x74
  | progress => 0x70
  | skip => 0x73
  | addHeader .. => 0x68
  | changeHeader .. => 0x6d
  | insertHeader .. => 0x69
  | changeSender .. => 0x65
  | addRecipient .. => 0x2b
  | addRecipientPar .. => 0x32
  | removeRecipient .. => 0x2d
  | replaceBody .. => 0x62
  | quarantine .. => 0x71

end Message

/-- The family-letter block of a Connect payload: family byte, then (except
for the no-address family) the `u16` big-endian port and the NUL-terminated
address text. -/
def ConnAddr.famBytes : ConnAddr → Nat → List Nat
  | .noAddr, _ => [0x55]
  | .unix path, port => 0x4c :: (beBytes2 port ++ (path ++ [0]))
  | .ip4 a, port => 0x34 :: (beBytes2 port ++ (a ++ [0]))
  | .ip6 a, port => 0x36 :: (beBytes2 port ++ (a ++ [0]))

/-- Optional trailing NUL-terminated string (ChangeSender and
AddRecipientPar ESMTP argument blocks). -/
def optCStr : Option (List Nat) → List Nat
  | none => []
  | some s => s ++ [0]

namespace Message

/-- The payload bytes of each message kind (spec §3 and §4.2). -/
def payload : Message → List Nat
  | negotiate v af pf ms => beBytes4 v ++ (beBytes4 af ++ (beBytes4 pf ++ joinStages ms))
  | macroMsg stage ps => stage :: joinPairs ps
  | connect h addr port => idnaEncode h ++ 0 :: ConnAddr.famBytes addr port
  | helo h => idnaEncode h ++ [0]
  | envelopeFrom s args => s ++ 0 :: joinCStrs args
  | envelopeRecipient r args => r ++ 0 :: joinCStrs args
  | dataMsg => []
  | unknownMsg c => c
  | headerMsg n v => n ++ 0 :: (v ++ [0])
  | endOfHeaders => []
  | body c => c
  | endOfMessage c => c
  | abort => []
  | close => []
  | continueMsg => []
  | reject => []
  | discard => []
  | accept => []
  | temporaryFailure => []
  | progress => []
  | skip => []
  | addHeader n v => n ++ 0 :: (v ++ [0])
  | changeHeader i n v => beBytes4 i ++ (n ++ 0 :: (v ++ [0]))
  | insertHeader i n v => beBytes4 i ++ (n ++ 0 :: (v ++ [0]))
  | changeSender a args => a ++ 0 :: optCStr args
  | addRecipient a => a ++ [0]
  | addRecipientPar a args => a ++ 0 :: optCStr args
  | removeRecipient a => a ++ [0]
  | replaceBody c => c
  | quarantine r => r ++ [0]

/-- Pack a message into its full wire frame: `u32` big-endian length
(identifier plus payload) then the identifier byte then the payload. -/
def pack (m : Message) : List Nat :=
  beBytes4 (m.payload.length + 1) ++ m.ident :: m.payload

end Message

/-- A byte string: every element is a byte value. -/
def isBytes (l : List Nat) : Bool := l.all (· < 256)

/-- A NUL-terminatable byte string: bytes with no NUL. -/
def isCStr (l : List Nat) : Bool := l.all (fun b => 0 < b && b < 256)

/-- A legal hostname: positive codepoints, and an all-ASCII hostname must
not itself carry the encoded-label marker (such names are not stable under
the wire encoding, as with real IDNA). -/
def legalHost (h : List Nat) : Bool :=
  h.all (fun c => 0 < c) && (!(allAscii h) || !(startsWithXn h))

/-- Legal macro-stage entries for Negotiate. -/
def legalStages (ms : List (Nat × List Nat)) : Bool :=
  ms.all (fun p => decide (p.1 < 2 ^ 32) && isCStr p.2)

/-- Legal macro name/value pairs. -/
def legalPairs (ps : List (List Nat × List Nat)) : Bool :=
  ps.all (fun p => isCStr p.1 && isCStr p.2)

/-- Legal Connect address/port combinations: the port is a `u16`; families
with no port byte block on the wire require port zero. -/
def legalAddr : ConnAddr → Nat → Bool
  | .noAddr, port => port == 0
  | .unix path, port => isCStr path && port == 0
  | .ip4 a, port => isCStr a && decide (port < 2 ^ 16)
  | .ip6 a, port => isCStr a && decide (port < 2 ^ 16)

namespace Message

/-- Field legality of a message value, kind by kind. -/
def legalFields : Message → Bool
  | negotiate v af pf ms =>
    decide (v < 2 ^ 32) && decide (af < 2 ^ 32) && decide (pf < 2 ^ 32) &&
      legalStages ms
  | macroMsg stage ps => decide (stage < 256) && legalPairs ps
  | connect h addr port => legalHost h && legalAddr addr port
  | helo h => legalHost h
  | envelopeFrom s args => isCStr s && args.all isCStr
  | envelopeRecipient r args => isCStr r && args.all isCStr
  | dataMsg => true
  | unknownMsg c => isBytes c
  | headerMsg n v => isCStr n && isCStr v
  | endOfHeaders => true
  | body c => isBytes c
  | endOfMessage c => isBytes c
  | abort => true
  | close => true
  | continueMsg => true
  | reject => true
  | discard => true
  | accept => true
  | temporaryFailure => true
  | progress => true
  | skip => true
  | addHeader n v => isCStr n && isCStr v
  | changeHeader i n v => decide (i < 2 ^ 32) && isCStr n && isCStr v
  | insertHeader i n v => decide (i < 2 ^ 32) && isCStr n && isCStr v
  | changeSender a args => isCStr a && args.rec true isCStr
  | addRecipient a => isCStr a
  | addRecipientPar a args => isCStr a && args.rec true isCStr
  | removeRecipient a => isCStr a
  | replaceBody c => isBytes c
  | quarantine r => isCStr r

/-- A legal message value: legal fields, and a payload short enough for its
length (including the identifier byte) to fit the `u32` length field. -/
def legalB (m : Message) : Bool :=
  decide (m.payload.length + 1 < 2 ^ 32) && m.legalFields

end Message

/-- Succeed with `m` only on an empty payload. -/
def emptyOnly (l : List Nat) (m : Message) : Option Message :=
  match l with
  | [] => some m
  | _ :: _ => none

/-- Parse a single NUL-terminated string spanning the whole payload. -/
def oneCStrOnly (l : List Nat) (k : List Nat → Message) : Option Message :=
  (takeCStr l).bind fun sr =>
    match sr.2 with
    | [] => some (k sr.1)
    | _ :: _ => none

/-- Parse a name/value NUL-terminated pair spanning the whole payload. -/
def nameValueOnly (l : List Nat) (k : List Nat → List Nat → Message) :
    Option Message :=
  (takeCStr l).bind fun nr =>
    (takeCStr nr.2).bind fun vr =>
      match vr.2 with
      | [] => some (k nr.1 vr.1)
      | _ :: _ => none

/-- Parse an address plus optional argument-string payload (ChangeSender,
AddRecipientPar). -/
def addrOptArgs (l : List Nat) (k : List Nat → Option (List Nat) → Message) :
    Option Message :=
  (takeCStr l).bind fun ar =>
    match ar.2 with
    | [] => some (k ar.1 none)
    | _ :: _ =>
      (takeCStr ar.2).bind fun sr =>
        match sr.2 with
        | [] => some (k ar.1 (some sr.1))
        | _ :: _ => none

/-- Parse the family block of a Connect payload. -/
def parseFam (host : List Nat) (l : List Nat) : Option Message :=
  match l with
  | [] => none
  | fam :: rest =>
    if fam = 0x55 then
      match rest with
      | [] => some (.connect host .noAddr 0)
      | _ :: _ => none
    else if fam = 0x4c then
      (takeU16 rest).bind fun pr =>
        (takeCStr pr.2).bind fun ar =>
          match ar.2 with
          | [] => some (.connect host (.unix ar.1) pr.1)
          | _ :: _ => none
    else if fam = 0x34 then
      (takeU16 rest).bind fun pr =>
        (takeCStr pr.2).bind fun ar =>
          match ar.2 with
          | [] => some (.connect host (.ip4 ar.1) pr.1)
          | _ :: _ => none
    else if fam = 0x36 then
      (takeU16 rest).bind fun pr =>
        (takeCStr pr.2).bind fun ar =>
          match ar.2 with
          | [] => some (.connect host (.ip6 ar.1) pr.1)
          | _ :: _ => none
    else none

/-- Parse a Negotiate payload: three `u32` fields then the stage map. -/
def parseNegotiate (l : List Nat) : Option Message :=
  (takeU32 l).bind fun vr =>
    (takeU32 vr.2).bind fun ar =>
      (takeU32 ar.2).bind fun pr =>
        (takeStages pr.2).map (Message.negotiate vr.1 ar.1 pr.1)

/-- Parse a Macro payload: a stage byte then name/value pairs. -/
def parseMacro (l : List Nat) : Option Message :=
  match l with
  | [] => none
  | stage :: rest => (takePairs rest).map (Message.macroMsg stage)

/-- Parse a Connect payload: a NUL-terminated wire hostname then the family
block. -/
def parseConnect (l : List Nat) : Option Message :=
  (takeCStr l).bind fun hr =>
    (idnaDecode hr.1).bind fun host => parseFam host hr.2

/-- Parse a Helo payload: a single NUL-terminated wire hostname. -/
def parseHelo (l : List Nat) : Option Message :=
  (takeCStr l).bind fun hr =>
    (idnaDecode hr.1).bind fun host =>
      match hr.2 with
      | [] => some (.helo host)
      | _ :: _ => none

/-- Parse an EnvelopeFrom payload: sender then argument strings. -/
def parseEnvFrom (l : List Nat) : Option Message :=
  (takeCStr l).bind fun sr => (takeCStrs sr.2).map (Message.envelopeFrom sr.1)

/-- Parse an EnvelopeRecipient payload: recipient then argument strings. -/
def parseEnvRcpt (l : List Nat) : Option Message :=
  (takeCStr l).bind fun rr =>
    (takeCStrs rr.2).map (Message.envelopeRecipient rr.1)

/-- Parse a `u32` index then a name/value pair (ChangeHeader and
InsertHeader payloads). -/
def indexNameValue (l : List Nat) (k : Nat → List Nat → List Nat → Message) :
    Option Message :=
  (takeU32 l).bind fun ir => nameValueOnly ir.2 (k ir.1)

/-- Decode the payload of a known message kind; `none` on a malformed
payload (spec §4.2 step 4). -/
def parsePayload (ident : Nat) (l : List Nat) : Option Message :=
  if ident = 0x4f then parseNegotiate l
  else if ident = 0x44 then parseMacro l
  else if ident = 0x43 then parseConnect l
  else if ident = 0x48 then parseHelo l
  else if ident = 0x4d then parseEnvFrom l
  else if ident = 0x52 then parseEnvRcpt l
  else if ident = 0x54 then emptyOnly l .dataMsg
  else if ident = 0x55 then some (.unknownMsg l)
  else if ident = 0x4c then nameValueOnly l .headerMsg
  else if ident = 0x4e then emptyOnly l .endOfHeaders
  else if ident = 0x42 then some (.body l)
  else if ident = 0x45 then some (.endOfMessage l)
  else if ident = 0x41 then emptyOnly l .abort
  else if ident = 0x51 then emptyOnly l .close
  else if ident = 0x63 then emptyOnly l .continueMsg
  else if ident = 0x72 then emptyOnly l .reject
  else if ident = 0x64 then emptyOnly l .discard
  else if ident = 0x61 then emptyOnly l .accept
  else if ident = 0x74 then emptyOnly l .temporaryFailure
  else if ident = 0x70 then emptyOnly l .progress
  else if ident = 0x73 then emptyOnly l .skip
  else if ident = 0x68 then nameValueOnly l .addHeader
  else if ident = 0x6d then indexNameValue l .changeHeader
  else if ident = 0x69 then indexNameValue l .insertHeader
  else if ident = 0x65 then addrOptArgs l .changeSender
  else if ident = 0x2b then oneCStrOnly l .addRecipient
  else if ident = 0x32 then addrOptArgs l .addRecipientPar
  else if ident = 0x2d then oneCStrOnly l .removeRecipient
  else if ident = 0x62 then some (.replaceBody l)
  else if ident = 0x71 then oneCStrOnly l .quarantine
  else none

/-- The fixed identifier table of known message kinds. -/
def knownIdents : List Nat :=
  [0x4f, 0x44, 0x43, 0x48, 0x4d, 0x52, 0x54, 0x55, 0x4c, 0x4e, 0x42, 0x45,
   0x41, 0x51, 0x63, 0x72, 0x64, 0x61, 0x74, 0x70, 0x73, 0x68, 0x6d, 0x69,
   0x65, 0x2b, 0x32, 0x2d, 0x62, 0x71]

/-- Whether an identifier byte is in the known message table. -/
def identKnown (ident : Nat) : Bool := knownIdents.contains ident

/-- Failures of `Message.unpack` (spec §7): an incomplete frame, a
well-framed frame of unknown kind (carrying the whole frame), or a
malformed payload. -/
inductive UnpackError
  | needsMore
  | unknownMessage (contents : List Nat)
  | invalidMessage
deriving DecidableEq

/-- Modelled from the spec (§4.2 `unpack`): read the `u32` length, check
completeness, look the identifier up in the known table, decode the
payload, and return the message with its consumed size `5 + payload_len`. -/
def Message.unpack (buf : List Nat) : Except UnpackError (Message × Nat) :=
  match buf with
  | a :: b :: c :: d :: rest =>
    if beToNat4 a b c d ≤ rest.length then
      match rest with
      | [] => .error .invalidMessage
      | ident :: rest2 =>
        if beToNat4 a b c d = 0 then .error .invalidMessage
        else if identKnown ident then
          match parsePayload ident (rest2.take (beToNat4 a b c d - 1)) with
          | none => .error .invalidMessage
          | some m => .ok (m, 4 + beToNat4 a b c d)
        else .error (.unknownMessage
          (a :: b :: c :: d :: ident :: rest2.take (beToNat4 a b c d - 1)))
    else .error .needsMore
  | _ => .error .needsMore
instance exceptDecEq {e a : Type} [DecidableEq e] [DecidableEq a] :
    DecidableEq (Except e a) := fun x y =>
  match x, y with
  | .error e1, .error e2 =>
    if h : e1 = e2 then .isTrue (by rw [h]) else .isFalse (by simp [h])
  | .error _, .ok _ => .isFalse (by simp)
  | .ok _, .error _ => .isFalse (by simp)
  | .ok a1, .ok a2 =>
    if h : a1 = a2 then .isTrue (by rw [h]) else .isFalse (by simp [h])
theorem isCStr_not_nul {s : List Nat} (h : isCStr s = true) : 0 ∉ s := by
  intro hmem
  have := List.all_eq_true.mp h 0 hmem
  simp at this

theorem isCStr_lt {s : List Nat} (h : isCStr s = true) : ∀ x ∈ s, x < 256 := by
  intro x hx
  have := List.all_eq_true.mp h x hx
  simp at this
  exact this.2

theorem isBytes_lt {s : List Nat} (h : isBytes s = true) : ∀ x ∈ s, x < 256 := by
  intro x hx
  have := List.all_eq_true.mp h x hx
  simpa using this

theorem legalHost_pos {h : List Nat} (hh : legalHost h = true) : ∀ c ∈ h, 0 < c := by
  intro c hc
  simp only [legalHost, Bool.and_eq_true, List.all_eq_true] at hh
  have := hh.1 c hc
  simpa using this

theorem legalHost_xn {h : List Nat} (hh : legalHost h = true) :
    allAscii h = true → startsWithXn h = false := by
  intro ha
  simp only [legalHost, Bool.and_eq_true] at hh
  have h2 := hh.2
  rw [ha] at h2
  simpa using h2

theorem emptyOnly_nil (m : Message) : emptyOnly [] m = some m := rfl

theorem oneCStrOnly_complete {s : List Nat} (hs : 0 ∉ s)
    (k : List Nat → Message) : oneCStrOnly (s ++ [0]) k = some (k s) := by
  rw [oneCStrOnly, show s ++ [0] = s ++ 0 :: [] from rfl, takeCStr_complete hs,
    Option.some_bind]

theorem nameValueOnly_complete {n v : List Nat} (hn : 0 ∉ n) (hv : 0 ∉ v)
    (k : List Nat → List Nat → Message) :
    nameValueOnly (n ++ 0 :: (v ++ [0])) k = some (k n v) := by
  rw [nameValueOnly, takeCStr_complete hn, Option.some_bind,
    show v ++ [0] = v ++ 0 :: [] from rfl, takeCStr_complete hv, Option.some_bind]

theorem addrOptArgs_complete {a : List Nat} (ha : 0 ∉ a)
    {args : Option (List Nat)} (hargs : ∀ s, args = some s → 0 ∉ s)
    (k : List Nat → Option (List Nat) → Message) :
    addrOptArgs (a ++ 0 :: optCStr args) k = some (k a args) := by
  rw [addrOptArgs, takeCStr_complete ha, Option.some_bind]
  match args with
  | none => rfl
  | some s =>
    have hs := hargs s rfl
    match s with
    | [] => simp [optCStr, takeCStr]
    | c :: cs =>
      simp only [optCStr, List.cons_append]
      rw [show c :: (cs ++ [0]) = (c :: cs) ++ 0 :: [] by simp,
        takeCStr_complete hs, Option.some_bind]

theorem parseFam_complete (host : List Nat) {addr : ConnAddr} {port : Nat}
    (h : legalAddr addr port = true) :
    parseFam host (ConnAddr.famBytes addr port) = some (.connect host addr port) := by
  match addr with
  | .noAddr =>
    obtain rfl : port = 0 := by simpa [legalAddr] using h
    rfl
  | .unix path =>
    rw [legalAddr, Bool.and_eq_true] at h
    obtain rfl : port = 0 := by simpa using h.2
    have hp : 0 ∉ path := isCStr_not_nul h.1
    rw [ConnAddr.famBytes]
    simp only [parseFam]
    norm_num
    rw [takeU16_complete 0 (by norm_num) _, Option.some_bind,
      show path ++ [0] = path ++ 0 :: [] from rfl, takeCStr_complete hp,
      Option.some_bind]
  | .ip4 a =>
    rw [legalAddr, Bool.and_eq_true] at h
    have hport : port < 2 ^ 16 := by simpa using h.2
    have hp : 0 ∉ a := isCStr_not_nul h.1
    rw [ConnAddr.famBytes]
    simp only [parseFam]
    norm_num
    rw [takeU16_complete port hport _, Option.some_bind,
      show a ++ [0] = a ++ 0 :: [] from rfl, takeCStr_complete hp,
      Option.some_bind]
  | .ip6 a =>
    rw [legalAddr, Bool.and_eq_true] at h
    have hport : port < 2 ^ 16 := by simpa using h.2
    have hp : 0 ∉ a := isCStr_not_nul h.1
    rw [ConnAddr.famBytes]
    simp only [parseFam]
    norm_num
    rw [takeU16_complete port hport _, Option.some_bind,
      show a ++ [0] = a ++ 0 :: [] from rfl, takeCStr_complete hp,
      Option.some_bind]
/-! Dispatch equations of `parsePayload`, one per known identifier. -/

theorem parsePayload_negotiate (l : List Nat) :
    parsePayload 0x4f l = parseNegotiate l := rfl

theorem parsePayload_macro (l : List Nat) :
    parsePayload 0x44 l = parseMacro l := rfl

theorem parsePayload_connect (l : List Nat) :
    parsePayload 0x43 l = parseConnect l := rfl

theorem parsePayload_helo (l : List Nat) :
    parsePayload 0x48 l = parseHelo l := rfl

theorem parsePayload_envFrom (l : List Nat) :
    parsePayload 0x4d l = parseEnvFrom l := rfl

theorem parsePayload_envRcpt (l : List Nat) :
    parsePayload 0x52 l = parseEnvRcpt l := rfl

theorem parsePayload_dataMsg (l : List Nat) :
    parsePayload 0x54 l = emptyOnly l .dataMsg := rfl

theorem parsePayload_unknownMsg (l : List Nat) :
    parsePayload 0x55 l = some (.unknownMsg l) := rfl

theorem parsePayload_headerMsg (l : List Nat) :
    parsePayload 0x4c l = nameValueOnly l .headerMsg := rfl

theorem parsePayload_endOfHeaders (l : List Nat) :
    parsePayload 0x4e l = emptyOnly l .endOfHeaders := rfl

theorem parsePayload_body (l : List Nat) :
    parsePayload 0x42 l = some (.body l) := rfl

theorem parsePayload_endOfMessage (l : List Nat) :
    parsePayload 0x45 l = some (.endOfMessage l) := rfl

theorem parsePayload_abort (l : List Nat) :
    parsePayload 0x41 l = emptyOnly l .abort := rfl

theorem parsePayload_close (l : List Nat) :
    parsePayload 0x51 l = emptyOnly l .close := rfl

theorem parsePayload_continueMsg (l : List Nat) :
    parsePayload 0x63 l = emptyOnly l .continueMsg := rfl

theorem parsePayload_reject (l : List Nat) :
    parsePayload 0x72 l = emptyOnly l .reject := rfl

theorem parsePayload_discard (l : List Nat) :
    parsePayload 0x64 l = emptyOnly l .discard := rfl

theorem parsePayload_accept (l : List Nat) :
    parsePayload 0x61 l = emptyOnly l .accept := rfl

theorem parsePayload_temporaryFailure (l : List Nat) :
    parsePayload 0x74 l = emptyOnly l .temporaryFailure := rfl

theorem parsePayload_progress (l : List Nat) :
    parsePayload 0x70 l = emptyOnly l .progress := rfl

theorem parsePayload_skipMsg (l : List Nat) :
    parsePayload 0x73 l = emptyOnly l .skip := rfl

theorem parsePayload_addHeader (l : List Nat) :
    parsePayload 0x68 l = nameValueOnly l .addHeader := rfl

theorem parsePayload_changeHeader (l : List Nat) :
    parsePayload 0x6d l = indexNameValue l .changeHeader := rfl

theorem parsePayload_insertHeader (l : List Nat) :
    parsePayload 0x69 l = indexNameValue l .insertHeader := rfl

theorem parsePayload_changeSender (l : List Nat) :
    parsePayload 0x65 l = addrOptArgs l .changeSender := rfl

theorem parsePayload_addRecipient (l : List Nat) :
    parsePayload 0x2b l = oneCStrOnly l .addRecipient := rfl

theorem parsePayload_addRecipientPar (l : List Nat) :
    parsePayload 0x32 l = addrOptArgs l .addRecipientPar := rfl

theorem parsePayload_removeRecipient (l : List Nat) :
    parsePayload 0x2d l = oneCStrOnly l .removeRecipient := rfl

theorem parsePayload_replaceBody (l : List Nat) :
    parsePayload 0x62 l = some (.replaceBody l) := rfl

theorem parsePayload_quarantine (l : List Nat) :
    parsePayload 0x71 l = oneCStrOnly l .quarantine := rfl
theorem legalStages_ok {ms : List (Nat × List Nat)} (h : legalStages ms = true) :
    ∀ p ∈ ms, p.1 < 2 ^ 32 ∧ 0 ∉ p.2 := by
  intro p hp
  simp only [legalStages, List.all_eq_true] at h
  have := h p hp
  simp only [Bool.and_eq_true, decide_eq_true_eq] at this
  exact ⟨this.1, isCStr_not_nul this.2⟩

theorem legalPairs_ok {ps : List (List Nat × List Nat)} (h : legalPairs ps = true) :
    ∀ p ∈ ps, 0 ∉ p.1 ∧ 0 ∉ p.2 := by
  intro p hp
  simp only [legalPairs, List.all_eq_true] at h
  have := h p hp
  simp only [Bool.and_eq_true] at this
  exact ⟨isCStr_not_nul this.1, isCStr_not_nul this.2⟩

/-- Completeness of the payload codec: the payload of every legal message
value parses back to the value itself. -/
theorem parsePayload_payload (v : Message) (hv : v.legalB = true) :
    parsePayload v.ident v.payload = some v := by
  have hf : v.legalFields = true := by
    simp only [Message.legalB, Bool.and_eq_true] at hv
    exact hv.2
  cases v with
  | negotiate ver af pf ms =>
    simp only [Message.legalFields, Bool.and_eq_true, decide_eq_true_eq] at hf
    obtain ⟨⟨⟨h1, h2⟩, h3⟩, h4⟩ := hf
    simp only [Message.ident, Message.payload, parsePayload_negotiate,
      parseNegotiate, takeU32_complete ver h1, Option.some_bind,
      takeU32_complete af h2, takeU32_complete pf h3,
      takeStages_complete ms (legalStages_ok h4), Option.map_some']
  | macroMsg stage ps =>
    simp only [Message.legalFields, Bool.and_eq_true, decide_eq_true_eq] at hf
    simp only [Message.ident, Message.payload, parsePayload_macro, parseMacro,
      takePairs_complete ps (legalPairs_ok hf.2), Option.map_some']
  | connect h addr port =>
    simp only [Message.legalFields, Bool.and_eq_true] at hf
    have hpos := legalHost_pos hf.1
    have hnul := idnaEncode_not_nul hpos
    simp only [Message.ident, Message.payload, parsePayload_connect,
      parseConnect, takeCStr_complete hnul (ConnAddr.famBytes addr port),
      Option.some_bind, idnaDecode_idnaEncode h (legalHost_xn hf.1),
      parseFam_complete h hf.2]
  | helo h =>
    simp only [Message.legalFields] at hf
    have hnul := idnaEncode_not_nul (legalHost_pos hf)
    simp only [Message.ident, Message.payload, parsePayload_helo, parseHelo,
      show idnaEncode h ++ [0] = idnaEncode h ++ 0 :: [] from rfl,
      takeCStr_complete hnul ([] : List Nat), Option.some_bind,
      idnaDecode_idnaEncode h (legalHost_xn hf)]
  | envelopeFrom s args =>
    simp only [Message.legalFields, Bool.and_eq_true, List.all_eq_true] at hf
    have hargs : ∀ t ∈ args, 0 ∉ t := fun t ht => isCStr_not_nul (hf.2 t ht)
    simp only [Message.ident, Message.payload, parsePayload_envFrom,
      parseEnvFrom, takeCStr_complete (isCStr_not_nul hf.1) (joinCStrs args),
      Option.some_bind, takeCStrs_complete args hargs, Option.map_some']
  | envelopeRecipient r args =>
    simp only [Message.legalFields, Bool.and_eq_true, List.all_eq_true] at hf
    have hargs : ∀ t ∈ args, 0 ∉ t := fun t ht => isCStr_not_nul (hf.2 t ht)
    simp only [Message.ident, Message.payload, parsePayload_envRcpt,
      parseEnvRcpt, takeCStr_complete (isCStr_not_nul hf.1) (joinCStrs args),
      Option.some_bind, takeCStrs_complete args hargs, Option.map_some']
  | dataMsg => rfl
  | unknownMsg c => rfl
  | headerMsg n v =>
    simp only [Message.legalFields, Bool.and_eq_true] at hf
    exact nameValueOnly_complete (isCStr_not_nul hf.1) (isCStr_not_nul hf.2) _
  | endOfHeaders => rfl
  | body c => rfl
  | endOfMessage c => rfl
  | abort => rfl
  | close => rfl
  | continueMsg => rfl
  | reject => rfl
  | discard => rfl
  | accept => rfl
  | temporaryFailure => rfl
  | progress => rfl
  | skip => rfl
  | addHeader n v =>
    simp only [Message.legalFields, Bool.and_eq_true] at hf
    exact nameValueOnly_complete (isCStr_not_nul hf.1) (isCStr_not_nul hf.2) _
  | changeHeader i n v =>
    simp only [Message.legalFields, Bool.and_eq_true, decide_eq_true_eq] at hf
    simp only [Message.ident, Message.payload, parsePayload_changeHeader,
      indexNameValue, takeU32_complete i hf.1.1, Option.some_bind]
    exact nameValueOnly_complete (isCStr_not_nul hf.1.2) (isCStr_not_nul hf.2) _
  | insertHeader i n v =>
    simp only [Message.legalFields, Bool.and_eq_true, decide_eq_true_eq] at hf
    simp only [Message.ident, Message.payload, parsePayload_insertHeader,
      indexNameValue, takeU32_complete i hf.1.1, Option.some_bind]
    exact nameValueOnly_complete (isCStr_not_nul hf.1.2) (isCStr_not_nul hf.2) _
  | changeSender a args =>
    simp only [Message.legalFields, Bool.and_eq_true] at hf
    refine addrOptArgs_complete (isCStr_not_nul hf.1) ?_ _
    intro t ht
    subst ht
    exact isCStr_not_nul hf.2
  | addRecipient a =>
    simp only [Message.legalFields] at hf
    exact oneCStrOnly_complete (isCStr_not_nul hf) _
  | addRecipientPar a args =>
    simp only [Message.legalFields, Bool.and_eq_true] at hf
    refine addrOptArgs_complete (isCStr_not_nul hf.1) ?_ _
    intro t ht
    subst ht
    exact isCStr_not_nul hf.2
  | removeRecipient a =>
    simp only [Message.legalFields] at hf
    exact oneCStrOnly_complete (isCStr_not_nul hf) _
  | replaceBody c => rfl
  | quarantine r =>
    simp only [Message.legalFields] at hf
    exact oneCStrOnly_complete (isCStr_not_nul hf) _
theorem takeCStrs_sound {l : List Nat} {ss : List (List Nat)}
    (h : takeCStrs l = some ss) : l = joinCStrs ss ∧ ∀ s ∈ ss, 0 ∉ s :=
  takeCStrsF_sound _ h

theorem takePairs_sound {l : List Nat} {ps : List (List Nat × List Nat)}
    (h : takePairs l = some ps) :
    l = joinPairs ps ∧ ∀ p ∈ ps, 0 ∉ p.1 ∧ 0 ∉ p.2 :=
  takePairsF_sound _ h

theorem takeStages_sound {l : List Nat} {ms : List (Nat × List Nat)}
    (hb : ∀ x ∈ l, x < 256) (h : takeStages l = some ms) :
    l = joinStages ms ∧ ∀ p ∈ ms, p.1 < 2 ^ 32 ∧ 0 ∉ p.2 :=
  takeStagesF_sound _ hb h

theorem emptyOnly_sound {l : List Nat} {m0 m : Message}
    (h : emptyOnly l m0 = some m) : m = m0 ∧ l = [] := by
  match l with
  | [] => exact ⟨(Option.some.inj h).symm, rfl⟩
  | _ :: _ => simp [emptyOnly] at h

theorem oneCStrOnly_sound {l : List Nat} {k : List Nat → Message} {m : Message}
    (h : oneCStrOnly l k = some m) : ∃ s, m = k s ∧ l = s ++ [0] := by
  rw [oneCStrOnly] at h
  match hc : takeCStr l with
  | none => rw [hc] at h; simp at h
  | some (s, r) =>
    rw [hc] at h
    simp only [Option.some_bind] at h
    match r with
    | [] =>
      obtain ⟨he, _⟩ := takeCStr_sound hc
      exact ⟨s, (Option.some.inj h).symm, by simpa using he⟩
    | _ :: _ => simp at h

theorem nameValueOnly_sound {l : List Nat} {k : List Nat → List Nat → Message}
    {m : Message} (h : nameValueOnly l k = some m) :
    ∃ n v, m = k n v ∧ l = n ++ 0 :: (v ++ [0]) := by
  rw [nameValueOnly] at h
  match hc : takeCStr l with
  | none => rw [hc] at h; simp at h
  | some (n, r1) =>
    rw [hc] at h
    simp only [Option.some_bind] at h
    match hc2 : takeCStr r1 with
    | none => rw [hc2] at h; simp at h
    | some (v, r2) =>
      rw [hc2] at h
      simp only [Option.some_bind] at h
      match r2 with
      | [] =>
        obtain ⟨he1, _⟩ := takeCStr_sound hc
        obtain ⟨he2, _⟩ := takeCStr_sound hc2
        refine ⟨n, v, (Option.some.inj h).symm, ?_⟩
        rw [he1, he2]
      | _ :: _ => simp at h

theorem addrOptArgs_sound {l : List Nat}
    {k : List Nat → Option (List Nat) → Message} {m : Message}
    (h : addrOptArgs l k = some m) :
    ∃ a args, m = k a args ∧ l = a ++ 0 :: optCStr args := by
  rw [addrOptArgs] at h
  match hc : takeCStr l with
  | none => rw [hc] at h; simp at h
  | some (a, r1) =>
    rw [hc] at h
    simp only [Option.some_bind] at h
    obtain ⟨he1, _⟩ := takeCStr_sound hc
    match r1 with
    | [] =>
      exact ⟨a, none, (Option.some.inj h).symm, by simpa [optCStr] using he1⟩
    | c :: rest =>
      match hc2 : takeCStr (c :: rest) with
      | none => rw [hc2] at h; simp at h
      | some (s, r2) =>
        rw [hc2] at h
        simp only [Option.some_bind] at h
        match r2 with
        | [] =>
          obtain ⟨he2, _⟩ := takeCStr_sound hc2
          refine ⟨a, some s, (Option.some.inj h).symm, ?_⟩
          rw [he1, he2]
          simp [optCStr]
        | _ :: _ => simp at h

theorem indexNameValue_sound {l : List Nat}
    {k : Nat → List Nat → List Nat → Message} {m : Message}
    (hb : ∀ x ∈ l, x < 256) (h : indexNameValue l k = some m) :
    ∃ i n v, m = k i n v ∧ l = beBytes4 i ++ (n ++ 0 :: (v ++ [0])) := by
  rw [indexNameValue] at h
  match hc : takeU32 l with
  | none => rw [hc] at h; simp at h
  | some (i, r1) =>
    rw [hc] at h
    simp only [Option.some_bind] at h
    obtain ⟨a, b, c, d, he1, hv1⟩ := takeU32_sound hc
    obtain ⟨n, v, hm, he2⟩ := nameValueOnly_sound h
    have ha : a < 256 := hb a (by rw [he1]; simp)
    have hbb : b < 256 := hb b (by rw [he1]; simp)
    have hcc : c < 256 := hb c (by rw [he1]; simp)
    have hdd : d < 256 := hb d (by rw [he1]; simp)
    refine ⟨i, n, v, hm, ?_⟩
    rw [he1, he2, hv1, beBytes4_beToNat4 a b c d ha hbb hcc hdd]
    simp

theorem parseFam_sound {host r : List Nat} {m : Message}
    (hb : ∀ x ∈ r, x < 256) (h : parseFam host r = some m) :
    ∃ addr port, m = .connect host addr port ∧
      r = ConnAddr.famBytes addr port := by
  match r with
  | [] => simp [parseFam] at h
  | fam :: rest =>
    simp only [parseFam] at h
    by_cases h55 : fam = 0x55
    · subst h55
      rw [if_pos rfl] at h
      match rest with
      | [] =>
        exact ⟨.noAddr, 0, (Option.some.inj h).symm, rfl⟩
      | _ :: _ => simp at h
    · rw [if_neg h55] at h
      have hrb : ∀ x ∈ rest, x < 256 := fun x hx => hb x (by simp [hx])
      by_cases h4c : fam = 0x4c
      · subst h4c
        rw [if_pos rfl] at h
        match hu : takeU16 rest with
        | none => rw [hu] at h; simp at h
        | some (port, r1) =>
          rw [hu] at h
          simp only [Option.some_bind] at h
          obtain ⟨a, b, he1, hv1⟩ := takeU16_sound hu
          match hc : takeCStr r1 with
          | none => rw [hc] at h; simp at h
          | some (path, r2) =>
            rw [hc] at h
            simp only [Option.some_bind] at h
            match r2 with
            | [] =>
              obtain ⟨he2, _⟩ := takeCStr_sound hc
              have ha : a < 256 := hrb a (by rw [he1]; simp)
              have hbb : b < 256 := hrb b (by rw [he1]; simp)
              refine ⟨.unix path, port, (Option.some.inj h).symm, ?_⟩
              rw [ConnAddr.famBytes, he1, he2, hv1, beBytes2_beToNat2 a b ha hbb]
              simp
            | _ :: _ => simp at h
      · rw [if_neg h4c] at h
        by_cases h34 : fam = 0x34
        · subst h34
          rw [if_pos rfl] at h
          match hu : takeU16 rest with
          | none => rw [hu] at h; simp at h
          | some (port, r1) =>
            rw [hu] at h
            simp only [Option.some_bind] at h
            obtain ⟨a, b, he1, hv1⟩ := takeU16_sound hu
            match hc : takeCStr r1 with
            | none => rw [hc] at h; simp at h
            | some (addr, r2) =>
              rw [hc] at h
              simp only [Option.some_bind] at h
              match r2 with
              | [] =>
                obtain ⟨he2, _⟩ := takeCStr_sound hc
                have ha : a < 256 := hrb a (by rw [he1]; simp)
                have hbb : b < 256 := hrb b (by rw [he1]; simp)
                refine ⟨.ip4 addr, port, (Option.some.inj h).symm, ?_⟩
                rw [ConnAddr.famBytes, he1, he2, hv1, beBytes2_beToNat2 a b ha hbb]
                simp
              | _ :: _ => simp at h
        · rw [if_neg h34] at h
          by_cases h36 : fam = 0x36
          · subst h36
            rw [if_pos rfl] at h
            match hu : takeU16 rest with
            | none => rw [hu] at h; simp at h
            | some (port, r1) =>
              rw [hu] at h
              simp only [Option.some_bind] at h
              obtain ⟨a, b, he1, hv1⟩ := takeU16_sound hu
              match hc : takeCStr r1 with
              | none => rw [hc] at h; simp at h
              | some (addr, r2) =>
                rw [hc] at h
                simp only [Option.some_bind] at h
                match r2 with
                | [] =>
                  obtain ⟨he2, _⟩ := takeCStr_sound hc
                  have ha : a < 256 := hrb a (by rw [he1]; simp)
                  have hbb : b < 256 := hrb b (by rw [he1]; simp)
                  refine ⟨.ip6 addr, port, (Option.some.inj h).symm, ?_⟩
                  rw [ConnAddr.famBytes, he1, he2, hv1,
                    beBytes2_beToNat2 a b ha hbb]
                  simp
                | _ :: _ => simp at h
          · rw [if_neg h36] at h
            simp at h
theorem parseNegotiate_sound {l : List Nat} {m : Message}
    (hb : ∀ x ∈ l, x < 256) (h : parseNegotiate l = some m) :
    m.ident = 0x4f ∧ m.payload = l := by
  rw [parseNegotiate] at h
  match h1 : takeU32 l with
  | none => rw [h1] at h; simp at h
  | some (ver, r1) =>
    rw [h1] at h
    simp only [Option.some_bind] at h
    match h2 : takeU32 r1 with
    | none => rw [h2] at h; simp at h
    | some (af, r2) =>
      rw [h2] at h
      simp only [Option.some_bind] at h
      match h3 : takeU32 r2 with
      | none => rw [h3] at h; simp at h
      | some (pf, r3) =>
        rw [h3] at h
        simp only [Option.some_bind] at h
        match h4 : takeStages r3 with
        | none => rw [h4] at h; simp at h
        | some ms =>
          rw [h4] at h
          simp only [Option.map_some', Option.some.injEq] at h
          obtain ⟨a1, b1, c1, d1, he1, hv1⟩ := takeU32_sound h1
          obtain ⟨a2, b2, c2, d2, he2, hv2⟩ := takeU32_sound h2
          obtain ⟨a3, b3, c3, d3, he3, hv3⟩ := takeU32_sound h3
          have hb1 : ∀ x ∈ r1, x < 256 := fun x hx => hb x (by rw [he1]; simp [hx])
          have hb2 : ∀ x ∈ r2, x < 256 := fun x hx => hb1 x (by rw [he2]; simp [hx])
          have hb3 : ∀ x ∈ r3, x < 256 := fun x hx => hb2 x (by rw [he3]; simp [hx])
          obtain ⟨he4, _⟩ := takeStages_sound hb3 h4
          subst h
          refine ⟨rfl, ?_⟩
          rw [Message.payload, ← he4, hv1, hv2, hv3,
            beBytes4_beToNat4 a1 b1 c1 d1 (hb _ (by rw [he1]; simp))
              (hb _ (by rw [he1]; simp)) (hb _ (by rw [he1]; simp))
              (hb _ (by rw [he1]; simp)),
            beBytes4_beToNat4 a2 b2 c2 d2 (hb1 _ (by rw [he2]; simp))
              (hb1 _ (by rw [he2]; simp)) (hb1 _ (by rw [he2]; simp))
              (hb1 _ (by rw [he2]; simp)),
            beBytes4_beToNat4 a3 b3 c3 d3 (hb2 _ (by rw [he3]; simp))
              (hb2 _ (by rw [he3]; simp)) (hb2 _ (by rw [he3]; simp))
              (hb2 _ (by rw [he3]; simp)), he1, he2, he3]
          simp

theorem parseMacro_sound {l : List Nat} {m : Message}
    (h : parseMacro l = some m) : m.ident = 0x44 ∧ m.payload = l := by
  match l with
  | [] => simp [parseMacro] at h
  | stage :: rest =>
    simp only [parseMacro] at h
    match h1 : takePairs rest with
    | none => rw [h1] at h; simp at h
    | some ps =>
      rw [h1] at h
      simp only [Option.map_some', Option.some.injEq] at h
      obtain ⟨he, _⟩ := takePairs_sound h1
      subst h
      exact ⟨rfl, by rw [Message.payload, ← he]⟩

theorem parseConnect_sound {l : List Nat} {m : Message}
    (hb : ∀ x ∈ l, x < 256) (h : parseConnect l = some m) :
    m.ident = 0x43 ∧ m.payload = l := by
  rw [parseConnect] at h
  match h1 : takeCStr l with
  | none => rw [h1] at h; simp at h
  | some (s, r) =>
    rw [h1] at h
    simp only [Option.some_bind] at h
    match h2 : idnaDecode s with
    | none => rw [h2] at h; simp at h
    | some host =>
      rw [h2] at h
      simp only [Option.some_bind] at h
      obtain ⟨he1, _⟩ := takeCStr_sound h1
      have hrb : ∀ x ∈ r, x < 256 := fun x hx => hb x (by rw [he1]; simp [hx])
      obtain ⟨addr, port, hm, he2⟩ := parseFam_sound hrb h
      subst hm
      refine ⟨rfl, ?_⟩
      rw [Message.payload, idnaDecode_sound h2, ← he2, ← he1]

theorem parseHelo_sound {l : List Nat} {m : Message}
    (h : parseHelo l = some m) : m.ident = 0x48 ∧ m.payload = l := by
  rw [parseHelo] at h
  match h1 : takeCStr l with
  | none => rw [h1] at h; simp at h
  | some (s, r) =>
    rw [h1] at h
    simp only [Option.some_bind] at h
    match h2 : idnaDecode s with
    | none => rw [h2] at h; simp at h
    | some host =>
      rw [h2] at h
      simp only [Option.some_bind] at h
      match r with
      | [] =>
        obtain ⟨he1, _⟩ := takeCStr_sound h1
        obtain rfl : Message.helo host = m := Option.some.inj h
        refine ⟨rfl, ?_⟩
        rw [Message.payload, idnaDecode_sound h2, ← he1]
      | _ :: _ => simp at h

theorem parseEnvFrom_sound {l : List Nat} {m : Message}
    (h : parseEnvFrom l = some m) : m.ident = 0x4d ∧ m.payload = l := by
  rw [parseEnvFrom] at h
  match h1 : takeCStr l with
  | none => rw [h1] at h; simp at h
  | some (s, r) =>
    rw [h1] at h
    simp only [Option.some_bind] at h
    match h2 : takeCStrs r with
    | none => rw [h2] at h; simp at h
    | some args =>
      rw [h2] at h
      simp only [Option.map_some', Option.some.injEq] at h
      obtain ⟨he1, _⟩ := takeCStr_sound h1
      obtain ⟨he2, _⟩ := takeCStrs_sound h2
      subst h
      exact ⟨rfl, by rw [Message.payload, ← he2, ← he1]⟩

theorem parseEnvRcpt_sound {l : List Nat} {m : Message}
    (h : parseEnvRcpt l = some m) : m.ident = 0x52 ∧ m.payload = l := by
  rw [parseEnvRcpt] at h
  match h1 : takeCStr l with
  | none => rw [h1] at h; simp at h
  | some (s, r) =>
    rw [h1] at h
    simp only [Option.some_bind] at h
    match h2 : takeCStrs r with
    | none => rw [h2] at h; simp at h
    | some args =>
      rw [h2] at h
      simp only [Option.map_some', Option.some.injEq] at h
      obtain ⟨he1, _⟩ := takeCStr_sound h1
      obtain ⟨he2, _⟩ := takeCStrs_sound h2
      subst h
      exact ⟨rfl, by rw [Message.payload, ← he2, ← he1]⟩
/-- Soundness of the payload codec: whatever parses from a byte string has
exactly that byte string as its payload, and the identifier it was parsed
under. -/
theorem parsePayload_sound {i : Nat} {l : List Nat} {m : Message}
    (hb : ∀ x ∈ l, x < 256) (h : parsePayload i l = some m) :
    m.ident = i ∧ m.payload = l := by
  rw [parsePayload] at h
  by_cases hk0 : i = 0x4f
  · subst hk0
    rw [if_pos rfl] at h
    exact parseNegotiate_sound hb h
  · rw [if_neg hk0] at h
    by_cases hk1 : i = 0x44
    · subst hk1
      rw [if_pos rfl] at h
      exact parseMacro_sound h
    · rw [if_neg hk1] at h
      by_cases hk2 : i = 0x43
      · subst hk2
        rw [if_pos rfl] at h
        exact parseConnect_sound hb h
      · rw [if_neg hk2] at h
        by_cases hk3 : i = 0x48
        · subst hk3
          rw [if_pos rfl] at h
          exact parseHelo_sound h
        · rw [if_neg hk3] at h
          by_cases hk4 : i = 0x4d
          · subst hk4
            rw [if_pos rfl] at h
            exact parseEnvFrom_sound h
          · rw [if_neg hk4] at h
            by_cases hk5 : i = 0x52
            · subst hk5
              rw [if_pos rfl] at h
              exact parseEnvRcpt_sound h
            · rw [if_neg hk5] at h
              by_cases hk6 : i = 0x54
              · subst hk6
                rw [if_pos rfl] at h
                obtain ⟨rfl, rfl⟩ := emptyOnly_sound h; exact ⟨rfl, rfl⟩
              · rw [if_neg hk6] at h
                by_cases hk7 : i = 0x55
                · subst hk7
                  rw [if_pos rfl] at h
                  obtain rfl : Message.unknownMsg l = m := Option.some.inj h; exact ⟨rfl, rfl⟩
                · rw [if_neg hk7] at h
                  by_cases hk8 : i = 0x4c
                  · subst hk8
                    rw [if_pos rfl] at h
                    obtain ⟨n, v, rfl, rfl⟩ := nameValueOnly_sound h; exact ⟨rfl, rfl⟩
                  · rw [if_neg hk8] at h
                    by_cases hk9 : i = 0x4e
                    · subst hk9
                      rw [if_pos rfl] at h
                      obtain ⟨rfl, rfl⟩ := emptyOnly_sound h; exact ⟨rfl, rfl⟩
                    · rw [if_neg hk9] at h
                      by_cases hk10 : i = 0x42
                      · subst hk10
                        rw [if_pos rfl] at h
                        obtain rfl : Message.body l = m := Option.some.inj h; exact ⟨rfl, rfl⟩
                      · rw [if_neg hk10] at h
                        by_cases hk11 : i = 0x45
                        · subst hk11
                          rw [if_pos rfl] at h
                          obtain rfl : Message.endOfMessage l = m := Option.some.inj h; exact ⟨rfl, rfl⟩
                        · rw [if_neg hk11] at h
                          by_cases hk12 : i = 0x41
                          · subst hk12
                            rw [if_pos rfl] at h
                            obtain ⟨rfl, rfl⟩ := emptyOnly_sound h; exact ⟨rfl, rfl⟩
                          · rw [if_neg hk12] at h
                            by_cases hk13 : i = 0x51
                            · subst hk13
                              rw [if_pos rfl] at h
                              obtain ⟨rfl, rfl⟩ := emptyOnly_sound h; exact ⟨rfl, rfl⟩
                            · rw [if_neg hk13] at h
                              by_cases hk14 : i = 0x63
                              · subst hk14
                                rw [if_pos rfl] at h
                                obtain ⟨rfl, rfl⟩ := emptyOnly_sound h; exact ⟨rfl, rfl⟩
                              · rw [if_neg hk14] at h
                                by_cases hk15 : i = 0x72
                                · subst hk15
                                  rw [if_pos rfl] at h
                                  obtain ⟨rfl, rfl⟩ := emptyOnly_sound h; exact ⟨rfl, rfl⟩
                                · rw [if_neg hk15] at h
                                  by_cases hk16 : i = 0x64
                                  · subst hk16
                                    rw [if_pos rfl] at h
                                    obtain ⟨rfl, rfl⟩ := emptyOnly_sound h; exact ⟨rfl, rfl⟩
                                  · rw [if_neg hk16] at h
                                    by_cases hk17 : i = 0x61
                                    · subst hk17
                                      rw [if_pos rfl] at h
                                      obtain ⟨rfl, rfl⟩ := emptyOnly_sound h; exact ⟨rfl, rfl⟩
                                    · rw [if_neg hk17] at h
                                      by_cases hk18 : i = 0x74
                                      · subst hk18
                                        rw [if_pos rfl] at h
                                        obtain ⟨rfl, rfl⟩ := emptyOnly_sound h; exact ⟨rfl, rfl⟩
                                      · rw [if_neg hk18] at h
                                        by_cases hk19 : i = 0x70
                                        · subst hk19
                                          rw [if_pos rfl] at h
                                          obtain ⟨rfl, rfl⟩ := emptyOnly_sound h; exact ⟨rfl, rfl⟩
                                        · rw [if_neg hk19] at h
                                          by_cases hk20 : i = 0x73
                                          · subst hk20
                                            rw [if_pos rfl] at h
                                            obtain ⟨rfl, rfl⟩ := emptyOnly_sound h; exact ⟨rfl, rfl⟩
                                          · rw [if_neg hk20] at h
                                            by_cases hk21 : i = 0x68
                                            · subst hk21
                                              rw [if_pos rfl] at h
                                              obtain ⟨n, v, rfl, rfl⟩ := nameValueOnly_sound h; exact ⟨rfl, rfl⟩
                                            · rw [if_neg hk21] at h
                                              by_cases hk22 : i = 0x6d
                                              · subst hk22
                                                rw [if_pos rfl] at h
                                                obtain ⟨j, n, v, rfl, rfl⟩ := indexNameValue_sound hb h; exact ⟨rfl, rfl⟩
                                              · rw [if_neg hk22] at h
                                                by_cases hk23 : i = 0x69
                                                · subst hk23
                                                  rw [if_pos rfl] at h
                                                  obtain ⟨j, n, v, rfl, rfl⟩ := indexNameValue_sound hb h; exact ⟨rfl, rfl⟩
                                                · rw [if_neg hk23] at h
                                                  by_cases hk24 : i = 0x65
                                                  · subst hk24
                                                    rw [if_pos rfl] at h
                                                    obtain ⟨a, args, rfl, rfl⟩ := addrOptArgs_sound h; exact ⟨rfl, rfl⟩
                                                  · rw [if_neg hk24] at h
                                                    by_cases hk25 : i = 0x2b
                                                    · subst hk25
                                                      rw [if_pos rfl] at h
                                                      obtain ⟨a, rfl, rfl⟩ := oneCStrOnly_sound h; exact ⟨rfl, rfl⟩
                                                    · rw [if_neg hk25] at h
                                                      by_cases hk26 : i = 0x32
                                                      · subst hk26
                                                        rw [if_pos rfl] at h
                                                        obtain ⟨a, args, rfl, rfl⟩ := addrOptArgs_sound h; exact ⟨rfl, rfl⟩
                                                      · rw [if_neg hk26] at h
                                                        by_cases hk27 : i = 0x2d
                                                        · subst hk27
                                                          rw [if_pos rfl] at h
                                                          obtain ⟨a, rfl, rfl⟩ := oneCStrOnly_sound h; exact ⟨rfl, rfl⟩
                                                        · rw [if_neg hk27] at h
                                                          by_cases hk28 : i = 0x62
                                                          · subst hk28
                                                            rw [if_pos rfl] at h
                                                            obtain rfl : Message.replaceBody l = m := Option.some.inj h; exact ⟨rfl, rfl⟩
                                                          · rw [if_neg hk28] at h
                                                            by_cases hk29 : i = 0x71
                                                            · subst hk29
                                                              rw [if_pos rfl] at h
                                                              obtain ⟨a, rfl, rfl⟩ := oneCStrOnly_sound h; exact ⟨rfl, rfl⟩
                                                            · rw [if_neg hk29] at h
                                                              simp at h

theorem identKnown_ident (v : Message) : identKnown v.ident = true := by
  cases v <;> rfl

theorem take_five (a b c d e : Nat) (l : List Nat) (n : Nat) :
    (a :: b :: c :: d :: e :: l).take (5 + n) = a :: b :: c :: d :: e :: l.take n := by
  rw [Nat.add_comm]
  rfl



theorem unpack_frame (i : Nat) (pl : List Nat) (hi : identKnown i = true)
    (hlen : pl.length + 1 < 2 ^ 32) :
    Message.unpack (beBytes4 (pl.length + 1) ++ i :: pl) =
      match parsePayload i pl with
      | none => .error .invalidMessage
      | some m => .ok (m, 5 + pl.length) := by
  simp only [beBytes4, List.cons_append, List.nil_append, Message.unpack]
  rw [beToNat4_beBytes4 _ hlen]
  rw [if_pos (by simp)]
  simp only [Nat.add_sub_cancel, List.take_length, hi, if_true,
    Nat.succ_ne_zero, if_false]
  rw [show 4 + (pl.length + 1) = 5 + pl.length by omega]

theorem unpack_pack (v : Message) (hv : v.legalB = true) :
    Message.unpack v.pack = .ok (v, 5 + v.payload.length) := by
  have hlen : v.payload.length + 1 < 2 ^ 32 := by
    simp only [Message.legalB, Bool.and_eq_true, decide_eq_true_eq] at hv
    exact hv.1
  rw [Message.pack, unpack_frame v.ident v.payload (identKnown_ident v) hlen,
    parsePayload_payload v hv]

theorem unpack_sound {buf : List Nat} {m : Message} {s : Nat}
    (hb : ∀ x ∈ buf, x < 256) (h : Message.unpack buf = .ok (m, s)) :
    Message.pack m = buf.take s ∧ s = 4 + beToNat4 (buf.getD 0 0) (buf.getD 1 0)
      (buf.getD 2 0) (buf.getD 3 0) ∧ s = 5 + m.payload.length := by
  match buf with
  | [] => simp [Message.unpack] at h
  | [a] => simp [Message.unpack] at h
  | [a, b] => simp [Message.unpack] at h
  | [a, b, c] => simp [Message.unpack] at h
  | a :: b :: c :: d :: rest =>
    simp only [Message.unpack] at h
    by_cases hle : beToNat4 a b c d ≤ rest.length
    · rw [if_pos hle] at h
      match rest with
      | [] => simp at h
      | ident :: rest2 =>
        dsimp only at h
        by_cases h0 : beToNat4 a b c d = 0
        · rw [if_pos h0] at h
          simp at h
        · rw [if_neg h0] at h
          by_cases hk : identKnown ident
          · rw [if_pos hk] at h
            match hp : parsePayload ident (rest2.take (beToNat4 a b c d - 1)) with
            | none => rw [hp] at h; simp at h
            | some m' =>
              rw [hp] at h
              simp only [Except.ok.injEq, Prod.mk.injEq] at h
              obtain ⟨rfl, rfl⟩ : m' = m ∧ 4 + beToNat4 a b c d = s := h
              have hbt : ∀ x ∈ rest2.take (beToNat4 a b c d - 1), x < 256 := by
                intro x hx
                exact hb x (by simp [List.mem_of_mem_take hx])
              obtain ⟨hi, hpl⟩ := parsePayload_sound hbt hp
              have hle2 : beToNat4 a b c d - 1 ≤ rest2.length := by
                simp only [List.length_cons] at hle
                omega
              have hplen : m'.payload.length = beToNat4 a b c d - 1 := by
                rw [hpl, List.length_take]
                omega
              refine ⟨?_, rfl, by omega⟩
              rw [Message.pack, hi, hplen, hpl,
                show beToNat4 a b c d - 1 + 1 = beToNat4 a b c d by omega,
                beBytes4_beToNat4 a b c d (hb a (by simp)) (hb b (by simp))
                  (hb c (by simp)) (hb d (by simp)),
                show 4 + beToNat4 a b c d = 5 + (beToNat4 a b c d - 1) by omega,
                take_five]
              simp
          · rw [if_neg hk] at h
            simp at h
    · rw [if_neg hle] at h
      simp at h
/-- Failures of buffer operations (spec §4.1 and §7). -/
inductive BufError
  | insufficientSpace (needed available : Nat)
  | valueError
deriving DecidableEq

/-- Modelled from the spec (§3 "Buffer", §4.1): a fill-pointer byte buffer
with fixed capacity; only the filled prefix is modelled, as the bytes past
`filled` are meaningless.  Cross-checked against tests/test_simple_buffer.py:
slice assignment with a default start writes at `filled` (append), an
explicit `[start:stop]` slice requires the target and source lengths to be
equal, and the fill pointer becomes the end of the written slice. -/
structure SimpleBuffer where
  capacity : Nat
  data : List Nat
deriving DecidableEq

namespace SimpleBuffer

/-- A fresh buffer of the given capacity with nothing filled. -/
def new (capacity : Nat) : SimpleBuffer := ⟨capacity, []⟩

/-- The number of meaningful bytes at the head. -/
def filled (b : SimpleBuffer) : Nat := b.data.length

/-- The free space after the filled bytes. -/
def available (b : SimpleBuffer) : Nat := b.capacity - b.filled

/-- The `len()` of a buffer: its fixed capacity. -/
def len (b : SimpleBuffer) : Nat := b.capacity

/-- Slice assignment `b[start:stop] = bs` (`none` for an omitted bound):
a missing start defaults to `filled` (append), a missing stop to
`start + len(bs)`; an explicit range of the wrong shape is a ValueError and
a range past the capacity is InsufficientSpace; on success the gap up to
`start` (if any) is zero-filled and `filled` becomes `stop`. -/
def setSlice (b : SimpleBuffer) (start stop : Option Nat) (bs : List Nat) :
    Except BufError SimpleBuffer :=
  let st := start.getD b.filled
  let en := stop.getD (st + bs.length)
  if st + bs.length = en then
    if en ≤ b.capacity then
      .ok ⟨b.capacity, ((b.data ++ List.replicate (st - b.data.length) 0).take st) ++ bs⟩
    else .error (.insufficientSpace bs.length b.available)
  else .error .valueError

/-- Head deletion `del b[:k]` (`none` deletes the whole filled prefix):
shifts the remaining bytes to the head. -/
def delHead (b : SimpleBuffer) (k : Option Nat) : SimpleBuffer :=
  ⟨b.capacity, b.data.drop (k.getD b.filled)⟩

/-- Operation `get_free(n)`: reserve a writable zeroed slice over
`[filled, filled + n)`, advancing `filled`; InsufficientSpace when it does
not fit. -/
def get_free (b : SimpleBuffer) (n : Nat) :
    Except BufError (SimpleBuffer × List Nat) :=
  if n ≤ b.available then
    .ok (⟨b.capacity, b.data ++ List.replicate n 0⟩, List.replicate n 0)
  else .error (.insufficientSpace n b.available)

end SimpleBuffer

/-- One buffer operation of the `SimpleBuffer` API. -/
inductive BufOp
  | setSlice (start stop : Option Nat) (bs : List Nat)
  | delHead (k : Option Nat)
  | getFree (n : Nat)
deriving DecidableEq

/-- Apply one operation; a failing operation leaves the buffer unchanged
(the exceptions are raised before any mutation). -/
def applyOp (b : SimpleBuffer) : BufOp → SimpleBuffer
  | .setSlice st en bs =>
    match b.setSlice st en bs with
    | .ok b' => b'
    | .error _ => b
  | .delHead k => b.delHead k
  | .getFree n =>
    match b.get_free n with
    | .ok (b', _) => b'
    | .error _ => b

/-- Run a sequence of operations on a fresh buffer. -/
def runOps (cap : Nat) (ops : List BufOp) : SimpleBuffer :=
  ops.foldl applyOp (SimpleBuffer.new cap)

theorem applyOp_capacity (b : SimpleBuffer) (op : BufOp) :
    (applyOp b op).capacity = b.capacity := by
  match op with
  | .setSlice st en bs =>
    rw [applyOp, SimpleBuffer.setSlice]
    by_cases h1 : (st.getD b.filled) + bs.length =
        en.getD (st.getD b.filled + bs.length)
    · rw [if_pos h1]
      by_cases h2 : en.getD (st.getD b.filled + bs.length) ≤ b.capacity
      · rw [if_pos h2]
      · rw [if_neg h2]
    · rw [if_neg h1]
  | .delHead k => rfl
  | .getFree n =>
    rw [applyOp, SimpleBuffer.get_free]
    by_cases h : n ≤ b.available
    · rw [if_pos h]
    · rw [if_neg h]

theorem applyOp_filled_le (b : SimpleBuffer) (op : BufOp)
    (hb : b.filled ≤ b.capacity) :
    (applyOp b op).filled ≤ (applyOp b op).capacity := by
  rw [applyOp_capacity]
  simp only [SimpleBuffer.filled] at hb
  match op with
  | .setSlice st en bs =>
    rw [applyOp, SimpleBuffer.setSlice]
    by_cases h1 : (st.getD b.filled) + bs.length =
        en.getD (st.getD b.filled + bs.length)
    · rw [if_pos h1]
      by_cases h2 : en.getD (st.getD b.filled + bs.length) ≤ b.capacity
      · rw [if_pos h2]
        simp only [SimpleBuffer.filled] at h1 h2
        simp only [SimpleBuffer.filled, List.length_append, List.length_take,
          List.length_replicate]
        omega
      · rw [if_neg h2]
        exact hb
    · rw [if_neg h1]
      exact hb
  | .delHead k =>
    simp only [applyOp, SimpleBuffer.delHead, SimpleBuffer.filled,
      List.length_drop]
    omega
  | .getFree n =>
    rw [applyOp, SimpleBuffer.get_free]
    by_cases h : n ≤ b.available
    · rw [if_pos h]
      simp only [SimpleBuffer.filled, List.length_append, List.length_replicate]
      simp only [SimpleBuffer.available, SimpleBuffer.filled] at h
      omega
    · rw [if_neg h]
      exact hb

theorem runOps_capacity_filled (cap : Nat) (ops : List BufOp) :
    (runOps cap ops).capacity = cap ∧ (runOps cap ops).filled ≤ cap := by
  rw [runOps]
  induction ops using List.reverseRecOn with
  | nil => exact ⟨rfl, by simp [SimpleBuffer.new, SimpleBuffer.filled]⟩
  | append_singleton ops op ih =>
    rw [List.foldl_append, List.foldl_cons, List.foldl_nil]
    have h1 := applyOp_capacity (List.foldl applyOp (SimpleBuffer.new cap) ops) op
    have h2 := applyOp_filled_le (List.foldl applyOp (SimpleBuffer.new cap) ops) op
      (by rw [ih.1]; exact ih.2)
    constructor
    · rw [h1, ih.1]
    · rw [h1, ih.1] at h2
      exact h2
theorem delHead_shift (b : SimpleBuffer) (k : Nat) :
    (b.delHead (some k)).capacity = b.capacity ∧
    (b.delHead (some k)).filled = b.filled - k ∧
    ∀ i, i < b.filled - k →
      (b.delHead (some k)).data.getD i 0 = b.data.getD (k + i) 0 := by
  refine ⟨rfl, ?_, ?_⟩
  · simp [SimpleBuffer.delHead, SimpleBuffer.filled]
  · intro i _
    simp [SimpleBuffer.delHead, List.getD_eq_getElem?_getD, List.getElem?_drop]
namespace ActionFlags

/-- Action capability bits (spec §3 "Flag sets"). -/
def ADD_HEADERS : Nat := 0x1

def CHANGE_BODY : Nat := 0x2

def ADD_RCPT : Nat := 0x4

def DEL_RCPT : Nat := 0x8

def CHANGE_HEADERS : Nat := 0x10

def QUARANTINE : Nat := 0x20

def CHANGE_FROM : Nat := 0x40

def ADD_RCPT_PAR : Nat := 0x80

def SETSYMLIST : Nat := 0x100

end ActionFlags

namespace ProtocolFlags

/-- Modelled from the spec: the spec names the protocol flags (SKIP, the
per-stage NR_* no-reply flags, the MAX_DATA_SIZE family) but gives no
numeric values; the standard milter version-6 bit assignments are used. -/
def SKIP : Nat := 0x400

def NR_HDR : Nat := 0x80

def NR_CONNECT : Nat := 0x1000

def NR_HELO : Nat := 0x2000

def NR_MAIL : Nat := 0x4000

def NR_RCPT : Nat := 0x8000

def NR_DATA : Nat := 0x10000

def NR_UNKN : Nat := 0x20000

def NR_EOH : Nat := 0x40000

def NR_BODY : Nat := 0x80000

def MAX_DATA_SIZE_256K : Nat := 0x10000000

def MAX_DATA_SIZE_1M : Nat := 0x20000000

end ProtocolFlags

/-- Whether a flag bit (or any bit of a mask) is set in a bitfield. -/
def hasFlag (flags mask : Nat) : Bool := flags &&& mask != 0

/-- Bitfield inclusion: every set bit of `x` is set in `y`. -/
def flagsSubset (x y : Nat) : Bool := x &&& y == x

/-- The session phases of the state diagram (spec §4.3). -/
inductive Phase
  | negotiating
  | connectP
  | heloP
  | envelope
  | dataP
  | headers
  | eoh
  | bodyP
  | postEom
  | aborted
  | closed
deriving DecidableEq

/-- Protocol errors surfaced by the state machine (spec §7); ValueError is
raised by Negotiate-reply validation. -/
inductive ProtoError
  | unexpectedMessage
  | invalidMessage
  | unknownMessage (contents : List Nat)
  | valueError
deriving DecidableEq

/-- Modelled from the spec (§3 "Session state", §4.3): the session state of
`FilterProtocol`: the configuration flag, the phase, whether a response to
the last event is still owed, the last event read, the flags the MTA
offered in its Negotiate event, and the negotiated flags stored by the
Negotiate reply. -/
structure FilterProtocol where
  abort_on_unknown : Bool
  phase : Phase
  response_expected : Bool
  current : Option Message
  offered_actions : Nat
  offered_protocol : Nat
  action_flags : Nat
  protocol_flags : Nat
  version : Nat
deriving DecidableEq

namespace FilterProtocol

/-- Construction `FilterProtocol(abort_on_unknown)`: a fresh session in the Negotiating
phase with nothing negotiated. -/
def new (abort_on_unknown : Bool := false) : FilterProtocol :=
  ⟨abort_on_unknown, .negotiating, false, none, 0, 0, 0, 0, 0⟩

/-- Attribute `skip`: true iff SKIP was negotiated. -/
def skip (p : FilterProtocol) : Bool := hasFlag p.protocol_flags ProtocolFlags.SKIP

/-- Helper `needs_response(msg)` (spec §4.3 helper contract): an event requires a
response unless its NR_* protocol flag was negotiated; Negotiate (and
EndOfMessage, which has no NR flag) always require one; Macro, Abort and
Close never do. -/
def needs_response (p : FilterProtocol) : Message → Bool
  | .negotiate .. => true
  | .macroMsg .. => false
  | .connect .. => !hasFlag p.protocol_flags ProtocolFlags.NR_CONNECT
  | .helo .. => !hasFlag p.protocol_flags ProtocolFlags.NR_HELO
  | .envelopeFrom .. => !hasFlag p.protocol_flags ProtocolFlags.NR_MAIL
  | .envelopeRecipient .. => !hasFlag p.protocol_flags ProtocolFlags.NR_RCPT
  | .dataMsg => !hasFlag p.protocol_flags ProtocolFlags.NR_DATA
  | .unknownMsg .. => !hasFlag p.protocol_flags ProtocolFlags.NR_UNKN
  | .headerMsg .. => !hasFlag p.protocol_flags ProtocolFlags.NR_HDR
  | .endOfHeaders => !hasFlag p.protocol_flags ProtocolFlags.NR_EOH
  | .body .. => !hasFlag p.protocol_flags ProtocolFlags.NR_BODY
  | .endOfMessage .. => true
  | .abort => false
  | .close => false
  | _ => false

end FilterProtocol

/-- Message kinds that are only ever sent by the filter; receiving such a
frame raises InvalidMessage (spec §4.3 read step 3). -/
def isOutboundOnly : Message → Bool
  | .continueMsg | .reject | .discard | .accept | .temporaryFailure
  | .progress | .skip | .addHeader .. | .changeHeader .. | .insertHeader ..
  | .changeSender .. | .addRecipient .. | .addRecipientPar ..
  | .removeRecipient .. | .replaceBody .. | .quarantine .. => true
  | _ => false

/-- Verdict kinds: single-message responses that settle an event
(Skip is handled separately). -/
def isVerdict : Message → Bool
  | .continueMsg | .reject | .discard | .accept | .temporaryFailure
  | .progress => true
  | _ => false

/-- Modification (update) kinds, legal only after EndOfMessage. -/
def isModification : Message → Bool
  | .addHeader .. | .changeHeader .. | .insertHeader .. | .changeSender ..
  | .addRecipient .. | .addRecipientPar .. | .removeRecipient ..
  | .replaceBody .. | .quarantine .. => true
  | _ => false

/-- The ActionFlag a modification requires (spec §3: "Each modification
action requires a specific ActionFlag"). -/
def modFlag : Message → Nat
  | .addHeader .. => ActionFlags.ADD_HEADERS
  | .changeHeader .. => ActionFlags.CHANGE_HEADERS
  | .insertHeader .. => ActionFlags.ADD_HEADERS
  | .changeSender .. => ActionFlags.CHANGE_FROM
  | .addRecipient .. => ActionFlags.ADD_RCPT
  | .addRecipientPar .. => ActionFlags.ADD_RCPT_PAR
  | .removeRecipient .. => ActionFlags.DEL_RCPT
  | .replaceBody .. => ActionFlags.CHANGE_BODY
  | .quarantine .. => ActionFlags.QUARANTINE
  | _ => 0

/-- The phase entered on receiving an event (spec §4.3 state diagram);
Macro and Unknown leave the phase alone, Abort returns to Envelope, Close
closes the session, EndOfMessage enters PostEOM. -/
def eventPhase (m : Message) (ph : Phase) : Phase :=
  match m with
  | .negotiate .. => ph
  | .macroMsg .. => ph
  | .connect .. => .connectP
  | .helo .. => .heloP
  | .envelopeFrom .. => .envelope
  | .envelopeRecipient .. => .envelope
  | .dataMsg => .dataP
  | .unknownMsg .. => ph
  | .headerMsg .. => .headers
  | .endOfHeaders => .eoh
  | .body .. => .bodyP
  | .endOfMessage .. => .postEom
  | .abort => .envelope
  | .close => .closed
  | _ => ph

/-- The session state after an event is accepted: phase updated, the
response expectation recorded, the event stored as current, and the flags
offered by a Negotiate event remembered for later validation. -/
def FilterProtocol.onEvent (p : FilterProtocol) (m : Message) : FilterProtocol :=
  { p with
    phase := eventPhase m p.phase
    response_expected := p.needs_response m
    current := some m
    offered_actions :=
      match m with
      | .negotiate _ af _ _ => af
      | _ => p.offered_actions
    offered_protocol :=
      match m with
      | .negotiate _ _ pf _ => pf
      | _ => p.offered_protocol }

/-- The outcome of one read step: no complete frame (silent end of the
sequence), one decoded event with the new state and consumed size, or a
protocol error. -/
inductive ReadResult
  | needsMore
  | event (m : Message) (p : FilterProtocol) (consumed : Nat)
  | fail (e : ProtoError)
deriving DecidableEq

/-- Modelled from the spec (§4.3 read side): one step of `read_from`.
An incomplete frame ends the sequence; a pending response makes any
further complete frame an UnexpectedMessage; an unknown frame either
synthesises an Abort (when `abort_on_unknown`) or surfaces UnknownMessage
with the whole frame; a malformed payload is InvalidMessage; receiving a
send-only kind is InvalidMessage; otherwise the event is yielded. -/
def readStep (p : FilterProtocol) (buf : List Nat) : ReadResult :=
  match Message.unpack buf with
  | .error .needsMore => .needsMore
  | .error .invalidMessage =>
    if p.response_expected then .fail .unexpectedMessage
    else .fail .invalidMessage
  | .error (.unknownMessage contents) =>
    if p.response_expected then .fail .unexpectedMessage
    else if p.abort_on_unknown then
      .event .abort (p.onEvent .abort) contents.length
    else .fail (.unknownMessage contents)
  | .ok (m, s) =>
    if p.response_expected then .fail .unexpectedMessage
    else if isOutboundOnly m then .fail .invalidMessage
    else .event m (p.onEvent m) s

/-- Iteration of `read_from` to the end of the buffer: the list of events
yielded, and either the final state or the error that ended iteration. -/
def readFromF : Nat → FilterProtocol → List Nat →
    List Message × Except ProtoError FilterProtocol
  | 0, p, _ => ([], .ok p)
  | fuel + 1, p, buf =>
    match readStep p buf with
    | .needsMore => ([], .ok p)
    | .fail e => ([], .error e)
    | .event m p' c =>
      let r := readFromF fuel p' (buf.drop c)
      (m :: r.1, r.2)

/-- Reader `read_from(buf)` (spec §4.3): iterate read steps until the frames run
out or a protocol error surfaces. -/
def read_from (p : FilterProtocol) (buf : List Nat) :
    List Message × Except ProtoError FilterProtocol :=
  readFromF (buf.length + 1) p buf
/-- Whether the current (last-read) event is a Body frame. -/
def FilterProtocol.currentIsBody (p : FilterProtocol) : Bool :=
  match p.current with
  | some (.body _) => true
  | _ => false

/-- The outcome of `write_to`: whether a UserWarning was emitted, and
either the new state with the packed frame appended to the output buffer,
or the error raised. -/
structure WriteResult where
  warned : Bool
  result : Except ProtoError (FilterProtocol × List Nat)

/-- Modelled from the spec (§4.3 write side), with the error taxonomy
cross-checked against tests/test_core_filter_protocol.py:
* a Negotiate reply is validated against the offered flags (ValueError on
  overreach), a non-empty macro map implicitly elevates SETSYMLIST with a
  warning, and success leaves the Negotiating phase;
* modifications are legal only in PostEOM with their ActionFlag negotiated
  (UnexpectedMessage otherwise) and do not consume the response slot;
* Skip is legal only when SKIP was negotiated, a response is owed and the
  current event is a Body frame; writing it when the current event is of a
  kind for which Skip is not a legal response is InvalidMessage
  (test_write_invalid), every other failure is UnexpectedMessage
  (test_action_bad, test_skip_wrong_state, test_skip_not_negotiated);
* a verdict is legal exactly when a response is owed; in PostEOM it is the
  final verdict and returns the phase to Envelope;
* any message that is not a legal outbound kind at all is InvalidMessage. -/
def FilterProtocol.write_to (p : FilterProtocol) (m : Message) : WriteResult :=
  match m with
  | .negotiate v af pf macros =>
    if p.phase = .negotiating ∧ p.response_expected then
      let af' := if macros.isEmpty then af else af ||| ActionFlags.SETSYMLIST
      if flagsSubset af' p.offered_actions &&
          flagsSubset pf p.offered_protocol then
        ⟨!macros.isEmpty,
          .ok ({ p with
                  phase := .connectP
                  response_expected := false
                  current := none
                  action_flags := af'
                  protocol_flags := pf
                  version := v },
            Message.pack (.negotiate v af' pf macros))⟩
      else ⟨!macros.isEmpty, .error .valueError⟩
    else ⟨false, .error .unexpectedMessage⟩
  | .skip =>
    if p.phase = .postEom then ⟨false, .error .unexpectedMessage⟩
    else if !p.response_expected then ⟨false, .error .unexpectedMessage⟩
    else if !p.currentIsBody then ⟨false, .error .invalidMessage⟩
    else if !p.skip then ⟨false, .error .unexpectedMessage⟩
    else ⟨false,
      .ok ({ p with response_expected := false, current := none },
        Message.pack .skip)⟩
  | _ =>
    if isModification m then
      if p.phase = .postEom ∧ flagsSubset (modFlag m) p.action_flags then
        ⟨false, .ok (p, Message.pack m)⟩
      else ⟨false, .error .unexpectedMessage⟩
    else if isVerdict m then
      if !p.response_expected then ⟨false, .error .unexpectedMessage⟩
      else if p.phase = .postEom then
        ⟨false,
          .ok ({ p with
                  phase := .envelope
                  response_expected := false
                  current := none },
            Message.pack m)⟩
      else
        ⟨false,
          .ok ({ p with response_expected := false, current := none },
            Message.pack m)⟩
    else ⟨false, .error .invalidMessage⟩
/-- Advance a session by one read step on concrete bytes (identity when no
event is yielded); a convenience for building concrete session states. -/
def stepRead (p : FilterProtocol) (buf : List Nat) : FilterProtocol :=
  match readStep p buf with
  | .event _ p' _ => p'
  | _ => p

/-- Advance a session by one write (identity on error); a convenience for
building concrete session states. -/
def stepWrite (p : FilterProtocol) (m : Message) : FilterProtocol :=
  match (p.write_to m).result with
  | .ok (p', _) => p'
  | .error _ => p
/-- Whether the buffer holds at least one complete frame (4-byte length
field plus `length` bytes). -/
def hasCompleteFrame (buf : List Nat) : Bool :=
  match buf with
  | a :: b :: c :: d :: rest => decide (beToNat4 a b c d ≤ rest.length)
  | _ => false

theorem unpack_needsMore_of_incomplete {buf : List Nat}
    (h : hasCompleteFrame buf = false) :
    Message.unpack buf = .error .needsMore := by
  match buf with
  | [] => rfl
  | [a] => rfl
  | [a, b] => rfl
  | [a, b, c] => rfl
  | a :: b :: c :: d :: rest =>
    simp only [hasCompleteFrame, decide_eq_false_iff_not] at h
    simp only [Message.unpack, if_neg h]

theorem unpack_ne_needsMore_of_complete {buf : List Nat}
    (h : hasCompleteFrame buf = true) :
    Message.unpack buf ≠ .error .needsMore := by
  match buf with
  | a :: b :: c :: d :: rest =>
    simp only [hasCompleteFrame, decide_eq_true_eq] at h
    simp only [Message.unpack, if_pos h]
    match rest with
    | [] => simp
    | ident :: rest2 =>
      dsimp only
      by_cases h0 : beToNat4 a b c d = 0
      · rw [if_pos h0]; simp
      · rw [if_neg h0]
        by_cases hk : identKnown ident
        · rw [if_pos hk]
          match parsePayload ident (rest2.take (beToNat4 a b c d - 1)) with
          | none => simp
          | some m => simp
        · rw [if_neg hk]
          simp

theorem flagsSubset_iff {x y : Nat} :
    flagsSubset x y = true ↔ ∀ i, x.testBit i = true → y.testBit i = true := by
  rw [flagsSubset, beq_iff_eq]
  constructor
  · intro h i hx
    have := congrArg (Nat.testBit · i) h
    simp only [Nat.testBit_and, hx, Bool.true_and] at this
    exact this
  · intro h
    refine Nat.eq_of_testBit_eq ?_
    intro i
    simp only [Nat.testBit_and]
    match hx : x.testBit i with
    | true => simp [h i hx]
    | false => simp

theorem flagsSubset_or_left {a s y : Nat}
    (h : flagsSubset (a ||| s) y = true) : flagsSubset a y = true := by
  rw [flagsSubset_iff] at h ⊢
  intro i hx
  refine h i ?_
  simp [Nat.testBit_or, hx]

theorem flagsSubset_or_right {a s y : Nat}
    (h : flagsSubset (a ||| s) y = true) : flagsSubset s y = true := by
  rw [flagsSubset_iff] at h ⊢
  intro i hx
  refine h i ?_
  simp [Nat.testBit_or, hx]

/-- Write a list of messages in sequence, stopping at the first error. -/
def writeSeq (p : FilterProtocol) : List Message → Except ProtoError FilterProtocol
  | [] => .ok p
  | m :: ms =>
    match (p.write_to m).result with
    | .ok (p', _) => writeSeq p' ms
    | .error e => .error e
/-- Example message with a non-ASCII hostname (тест) for evaluation. -/
def exConnect : Message :=
  .connect [1090, 1077, 1089, 1090] (.ip4 [49, 48, 46, 48, 46, 48, 46, 49]) 25

/-- Example Negotiate message with a macro-stage map for evaluation. -/
def exNegotiate : Message :=
  .negotiate 6 0xABCDEF01 0xAAAAAAAA
    [(0, [115, 112, 97, 109, 32, 101, 103, 103, 115]), (1, [104, 97, 109])]

/-- Claim C1: for every known message kind and every legal value `v`,
unpacking the packed frame yields `v` back together with the consumed size
`5 + payload_len`; and for every well-formed wire frame `b` of a known kind
(one that `unpack` accepts), packing the message unpacked from `b`
reproduces exactly the first `5 + payload_len` bytes of `b`, where the
consumed size is `4 + length-field` `= 5 + payload_len`. -/
theorem c1_pack_unpack_roundtrip :
    (∀ v : Message, v.legalB = true →
      Message.unpack v.pack = .ok (v, 5 + v.payload.length)) ∧
    (∀ (b : List Nat) (m : Message) (s : Nat), (∀ x ∈ b, x < 256) →
      Message.unpack b = .ok (m, s) →
      Message.pack m = b.take s ∧
      s = 4 + beToNat4 (b.getD 0 0) (b.getD 1 0) (b.getD 2 0) (b.getD 3 0) ∧
      s = 5 + m.payload.length) :=
  ⟨unpack_pack, fun _ _ _ hb h => unpack_sound hb h⟩

/-- Witness for C1 at concrete inputs: a Connect with a non-ASCII hostname
round-trips through pack/unpack, and re-packing the message unpacked from a
packed Negotiate frame reproduces the frame prefix. -/
theorem c1_pack_unpack_roundtrip_witness :
    Message.unpack exConnect.pack = .ok (exConnect, 5 + exConnect.payload.length) ∧
    Message.pack exNegotiate = exNegotiate.pack.take (5 + exNegotiate.payload.length) := by
  constructor
  · exact c1_pack_unpack_roundtrip.1 exConnect (by decide)
  · exact (c1_pack_unpack_roundtrip.2 exNegotiate.pack exNegotiate
      (5 + exNegotiate.payload.length) (by decide) (by decide)).1

/-- Claim C8: a buffer with fewer than 4 bytes, or fewer than `4 + length`
bytes after the big-endian length field, makes `Message.unpack` raise
NeedsMore, and `read_from` on such a buffer yields zero events and raises
nothing. -/
theorem c8_incomplete_frames :
    (∀ buf : List Nat, buf.length < 4 → Message.unpack buf = .error .needsMore) ∧
    (∀ (a b c d : Nat) (rest : List Nat), rest.length < beToNat4 a b c d →
      Message.unpack (a :: b :: c :: d :: rest) = .error .needsMore) ∧
    (∀ (p : FilterProtocol) (buf : List Nat),
      Message.unpack buf = .error .needsMore →
      read_from p buf = ([], .ok p)) := by
  refine ⟨?_, ?_, ?_⟩
  · intro buf hlen
    match buf with
    | [] => rfl
    | [a] => rfl
    | [a, b] => rfl
    | [a, b, c] => rfl
    | a :: b :: c :: d :: rest => simp at hlen; omega
  · intro a b c d rest hlen
    simp only [Message.unpack]
    rw [if_neg (show ¬ beToNat4 a b c d ≤ rest.length by omega)]
  · intro p buf h
    simp [read_from, readFromF, readStep, h]

/-- Witness for C8 at the concrete inputs of the tests: a 3-byte header
fragment and a truncated 11-byte Connect frame. -/
theorem c8_incomplete_frames_witness :
    Message.unpack [0, 0, 15] = .error .needsMore ∧
    Message.unpack [0, 0, 0, 11, 0x43, 115, 112, 97, 109] = .error .needsMore ∧
    read_from (FilterProtocol.new false) [0, 0, 0, 11, 0x43, 115, 112, 97, 109] =
      ([], .ok (FilterProtocol.new false)) := by
  refine ⟨c8_incomplete_frames.1 [0, 0, 15] (by decide), ?_, ?_⟩
  · exact c8_incomplete_frames.2.1 0 0 0 11 [0x43, 115, 112, 97, 109] (by decide)
  · refine c8_incomplete_frames.2.2 (FilterProtocol.new false) _ ?_
    exact c8_incomplete_frames.2.1 0 0 0 11 [0x43, 115, 112, 97, 109] (by decide)

/-- Claim C10: over any sequence of SimpleBuffer operations from
construction, the buffer's `len` stays the construction capacity and
`filled + available = capacity`; deleting the first `k` bytes shifts the
remaining filled bytes to the head (byte `i` afterwards is old byte `k+i`)
and decreases `filled` by `k`, leaving the capacity unchanged. -/
theorem c10_buffer_invariants :
    (∀ (cap : Nat) (ops : List BufOp),
      (runOps cap ops).len = cap ∧
      (runOps cap ops).filled + (runOps cap ops).available = cap) ∧
    (∀ (b : SimpleBuffer) (k : Nat), k ≤ b.filled →
      (b.delHead (some k)).len = b.len ∧
      (b.delHead (some k)).filled = b.filled - k ∧
      ∀ i, i < b.filled - k →
        (b.delHead (some k)).data.getD i 0 = b.data.getD (k + i) 0) := by
  constructor
  · intro cap ops
    obtain ⟨h1, h2⟩ := runOps_capacity_filled cap ops
    refine ⟨h1, ?_⟩
    simp only [SimpleBuffer.available, SimpleBuffer.len] at *
    omega
  · intro b k _
    obtain ⟨h1, h2, h3⟩ := delHead_shift b k
    exact ⟨h1, h2, h3⟩

/-- Witness for C10 at concrete inputs: the test_del scenario (capacity 50,
20 bytes filled, delete 11 from the head) and a concrete operation
sequence. -/
theorem c10_buffer_invariants_witness :
    ((runOps 50 [.setSlice none (some 20) (List.replicate 20 7), .getFree 5,
        .delHead (some 11)]).len = 50 ∧
      (runOps 50 [.setSlice none (some 20) (List.replicate 20 7), .getFree 5,
        .delHead (some 11)]).filled +
        (runOps 50 [.setSlice none (some 20) (List.replicate 20 7), .getFree 5,
          .delHead (some 11)]).available = 50) ∧
    ((SimpleBuffer.mk 50 [1, 2, 3, 4, 5]).delHead (some 2)).filled = 3 ∧
    ((SimpleBuffer.mk 50 [1, 2, 3, 4, 5]).delHead (some 2)).data.getD 1 0 =
      (SimpleBuffer.mk 50 [1, 2, 3, 4, 5]).data.getD 3 0 := by
  refine ⟨c10_buffer_invariants.1 50 _, ?_, ?_⟩
  · exact (c10_buffer_invariants.2 (SimpleBuffer.mk 50 [1, 2, 3, 4, 5]) 2
      (by decide)).2.1
  · exact (c10_buffer_invariants.2 (SimpleBuffer.mk 50 [1, 2, 3, 4, 5]) 2
      (by decide)).2.2 1 (by decide)
/-- Claim C2: (i) when a response to the last event is still owed, a read
step on a buffer holding a complete frame raises UnexpectedMessage;
(ii) after a yielded event the recorded response expectation is exactly
`needs_response`; (iii) `needs_response` requires a response for Negotiate
always, never for Macro, Abort and Close, and for the per-stage events
exactly when their NR_* flag was not negotiated; (iv) when no response is
required, the next well-formed event is yielded immediately by the next
read step; (v) writing a verdict when no response is owed raises
UnexpectedMessage. -/
theorem c2_response_sequencing :
    (∀ (p : FilterProtocol) (buf : List Nat), p.response_expected = true →
      hasCompleteFrame buf = true → readStep p buf = .fail .unexpectedMessage) ∧
    (∀ (p p' : FilterProtocol) (buf : List Nat) (m : Message) (c : Nat),
      readStep p buf = .event m p' c →
      p'.response_expected = p.needs_response m) ∧
    (∀ p : FilterProtocol,
      (∀ v af pf ms, p.needs_response (.negotiate v af pf ms) = true) ∧
      (∀ st prs, p.needs_response (.macroMsg st prs) = false) ∧
      p.needs_response .abort = false ∧ p.needs_response .close = false ∧
      (∀ h a pt, p.needs_response (.connect h a pt) =
        !hasFlag p.protocol_flags ProtocolFlags.NR_CONNECT) ∧
      (∀ h, p.needs_response (.helo h) =
        !hasFlag p.protocol_flags ProtocolFlags.NR_HELO) ∧
      (∀ s a, p.needs_response (.envelopeFrom s a) =
        !hasFlag p.protocol_flags ProtocolFlags.NR_MAIL) ∧
      (∀ r a, p.needs_response (.envelopeRecipient r a) =
        !hasFlag p.protocol_flags ProtocolFlags.NR_RCPT) ∧
      p.needs_response .dataMsg =
        !hasFlag p.protocol_flags ProtocolFlags.NR_DATA ∧
      (∀ u, p.needs_response (.unknownMsg u) =
        !hasFlag p.protocol_flags ProtocolFlags.NR_UNKN) ∧
      (∀ n v, p.needs_response (.headerMsg n v) =
        !hasFlag p.protocol_flags ProtocolFlags.NR_HDR) ∧
      p.needs_response .endOfHeaders =
        !hasFlag p.protocol_flags ProtocolFlags.NR_EOH ∧
      (∀ b, p.needs_response (.body b) =
        !hasFlag p.protocol_flags ProtocolFlags.NR_BODY) ∧
      (∀ b, p.needs_response (.endOfMessage b) = true)) ∧
    (∀ (p p' : FilterProtocol) (buf : List Nat) (m m' : Message) (c s' : Nat),
      readStep p buf = .event m p' c → p'.response_expected = false →
      Message.unpack (buf.drop c) = .ok (m', s') → isOutboundOnly m' = false →
      readStep p' (buf.drop c) = .event m' (p'.onEvent m') s') ∧
    (∀ (p : FilterProtocol) (m : Message), isVerdict m = true →
      p.response_expected = false →
      (p.write_to m).result = .error .unexpectedMessage) := by
  refine ⟨?_, ?_, ?_, ?_, ?_⟩
  · intro p buf hresp hc
    rw [readStep]
    match hu : Message.unpack buf with
    | .error .needsMore => exact absurd hu (unpack_ne_needsMore_of_complete hc)
    | .error .invalidMessage => simp [hresp]
    | .error (.unknownMessage contents) => simp [hresp]
    | .ok (m, s) => simp [hresp]
  · intro p p' buf m c h
    rw [readStep] at h
    match hu : Message.unpack buf with
    | .error .needsMore => rw [hu] at h; simp at h
    | .error .invalidMessage =>
      rw [hu] at h
      by_cases hr : p.response_expected <;> simp [hr] at h
    | .error (.unknownMessage contents) =>
      rw [hu] at h
      by_cases hr : p.response_expected
      · simp [hr] at h
      · by_cases ha : p.abort_on_unknown
        · simp only [hr, ha, if_false, if_true, Bool.false_eq_true,
            ReadResult.event.injEq] at h
          obtain ⟨rfl, rfl, rfl⟩ := h
          rfl
        · simp [hr, ha] at h
    | .ok (ms, s) =>
      rw [hu] at h
      by_cases hr : p.response_expected
      · simp [hr] at h
      · by_cases ho : isOutboundOnly ms
        · simp [hr, ho] at h
        · simp only [hr, ho, Bool.false_eq_true, if_false,
            ReadResult.event.injEq] at h
          obtain ⟨rfl, rfl, rfl⟩ := h
          rfl
  · intro p
    refine ⟨fun _ _ _ _ => rfl, fun _ _ => rfl, rfl, rfl, fun _ _ _ => rfl,
      fun _ => rfl, fun _ _ => rfl, fun _ _ => rfl, rfl, fun _ => rfl,
      fun _ _ => rfl, rfl, fun _ => rfl, fun _ => rfl⟩
  · intro p p' buf m m' c s' _ hresp hu ho
    rw [readStep, hu, hresp]
    simp [ho]
  · intro p m hv hresp
    match m with
    | .continueMsg | .reject | .discard | .accept | .temporaryFailure
    | .progress =>
      simp [FilterProtocol.write_to, isModification, isVerdict, hresp]
/-- All action bits an MTA can offer (as in the tests). -/
def ALL_ACTIONS : Nat := 0x1ff

/-- All protocol bits the tests use as the full MTA offer. -/
def ALL_PROTOCOL : Nat := 0xfffff

/-- A packed Negotiate event offering everything. -/
def exNegotiateFrame : List Nat := (Message.negotiate 6 ALL_ACTIONS ALL_PROTOCOL []).pack

/-- A session that has read the full-offer Negotiate event and replied,
negotiating the given action and protocol flags (mirrors the tests'
`negotiated_protocol` helper). -/
def negotiatedSession (acts opts : Nat) : FilterProtocol :=
  stepWrite (stepRead (FilterProtocol.new false) exNegotiateFrame)
    (.negotiate 6 acts opts [])

/-- A packed Connect event. -/
def exConnectFrame : List Nat :=
  (Message.connect [101, 120] (.ip4 [49, 48, 46, 49, 46, 49, 46, 49]) 11111).pack

/-- A packed Body event. -/
def exBodyFrame : List Nat := (Message.body [115, 112, 97, 109]).pack

/-- A packed EndOfMessage event. -/
def exEomFrame : List Nat := (Message.endOfMessage []).pack

/-- Witness for C2 at concrete inputs: with a response to Negotiate owed,
reading the next complete frame fails with UnexpectedMessage; with
NR_CONNECT negotiated, responding Continue to a Connect event fails with
UnexpectedMessage. -/
theorem c2_response_sequencing_witness :
    readStep (stepRead (FilterProtocol.new false) exNegotiateFrame)
      exConnectFrame = .fail .unexpectedMessage ∧
    ((stepRead (negotiatedSession 0 ProtocolFlags.NR_CONNECT)
        exConnectFrame).write_to .continueMsg).result =
      .error .unexpectedMessage := by
  constructor
  · exact c2_response_sequencing.1 _ _ (by decide) (by decide)
  · exact c2_response_sequencing.2.2.2.2 _ .continueMsg (by decide) (by decide)

/-- Claim C7: a complete well-framed frame whose identifier byte is not in
the known table makes the read step fail with an UnknownMessage carrying
exactly the full `4 + length` bytes of the frame when `abort_on_unknown`
is false, and yield a synthesised Abort event when it is true. -/
theorem c7_unknown_frames :
    ∀ (p : FilterProtocol) (a b c d i : Nat) (rest2 : List Nat),
      p.response_expected = false → identKnown i = false →
      beToNat4 a b c d ≤ (i :: rest2).length → beToNat4 a b c d ≠ 0 →
      (p.abort_on_unknown = false →
        readStep p (a :: b :: c :: d :: i :: rest2) =
          .fail (.unknownMessage
            ((a :: b :: c :: d :: i :: rest2).take (4 + beToNat4 a b c d)))) ∧
      (p.abort_on_unknown = true →
        readStep p (a :: b :: c :: d :: i :: rest2) =
          .event .abort (p.onEvent .abort) (4 + beToNat4 a b c d)) := by
  intro p a b c d i rest2 hresp hk hle h0
  have hu : Message.unpack (a :: b :: c :: d :: i :: rest2) =
      .error (.unknownMessage
        (a :: b :: c :: d :: i :: rest2.take (beToNat4 a b c d - 1))) := by
    simp only [Message.unpack, if_pos hle]
    rw [if_neg h0, if_neg (by simp [hk])]
  have htake : (a :: b :: c :: d :: i :: rest2).take (4 + beToNat4 a b c d) =
      a :: b :: c :: d :: i :: rest2.take (beToNat4 a b c d - 1) := by
    rw [show 4 + beToNat4 a b c d = 5 + (beToNat4 a b c d - 1) by omega,
      take_five]
  constructor
  · intro ha
    rw [readStep, hu, htake]
    simp [hresp, ha]
  · intro ha
    rw [readStep, hu]
    simp only [hresp, ha, Bool.false_eq_true, if_false, if_true]
    have hlen : (a :: b :: c :: d :: i :: rest2.take
        (beToNat4 a b c d - 1)).length = 4 + beToNat4 a b c d := by
      simp only [List.length_cons, List.length_take]
      simp only [List.length_cons] at hle
      omega
    rw [hlen]

/-- Witness for C7 at the tests' concrete input: the 5-byte frame with the
unknown identifier letter S, in both configuration modes. -/
theorem c7_unknown_frames_witness :
    readStep (FilterProtocol.new false) [0, 0, 0, 1, 0x53] =
      .fail (.unknownMessage ([0, 0, 0, 1, 0x53].take (4 + beToNat4 0 0 0 1))) ∧
    readStep (FilterProtocol.new true) [0, 0, 0, 1, 0x53] =
      .event .abort ((FilterProtocol.new true).onEvent .abort)
        (4 + beToNat4 0 0 0 1) := by
  constructor
  · exact (c7_unknown_frames (FilterProtocol.new false) 0 0 0 1 0x53 []
      (by decide) (by decide) (by decide) (by decide)).1 (by decide)
  · exact (c7_unknown_frames (FilterProtocol.new true) 0 0 0 1 0x53 []
      (by decide) (by decide) (by decide) (by decide)).2 (by decide)
theorem hasFlag_or_setsymlist (af : Nat) :
    hasFlag (af ||| ActionFlags.SETSYMLIST) ActionFlags.SETSYMLIST = true := by
  rw [hasFlag, bne_iff_ne]
  intro h
  have hbit : ((af ||| ActionFlags.SETSYMLIST) &&&
      ActionFlags.SETSYMLIST).testBit 8 = false := by
    rw [h]
    simp
  rw [Nat.testBit_and, Nat.testBit_or] at hbit
  have : (ActionFlags.SETSYMLIST).testBit 8 = true := by decide
  rw [this] at hbit
  simp at hbit

theorem write_to_modification (p : FilterProtocol) (m : Message)
    (hm : isModification m = true) :
    p.write_to m =
      if p.phase = .postEom ∧ flagsSubset (modFlag m) p.action_flags = true
      then ⟨false, .ok (p, Message.pack m)⟩
      else ⟨false, .error .unexpectedMessage⟩ := by
  cases m <;> first
    | rfl
    | exact absurd hm (by simp [isModification])

/-- Claim C3: a Negotiate reply (written while negotiating, with a response
owed) raises ValueError when its action or protocol flags are not a subset
of the MTA's offer; a non-empty macro mapping emits a warning and
implicitly adds SETSYMLIST to the reply's action flags, and raises
ValueError when SETSYMLIST was not offered. -/
theorem c3_negotiate_validation :
    ∀ (p : FilterProtocol) (v af pf : Nat) (macros : List (Nat × List Nat)),
    p.phase = .negotiating → p.response_expected = true →
    ((flagsSubset af p.offered_actions = false ∨
        flagsSubset pf p.offered_protocol = false) →
      (p.write_to (.negotiate v af pf macros)).result = .error .valueError) ∧
    (macros ≠ [] → (p.write_to (.negotiate v af pf macros)).warned = true) ∧
    (∀ (p' : FilterProtocol) (out : List Nat), macros ≠ [] →
      (p.write_to (.negotiate v af pf macros)).result = .ok (p', out) →
      hasFlag p'.action_flags ActionFlags.SETSYMLIST = true ∧
      out = Message.pack
        (.negotiate v (af ||| ActionFlags.SETSYMLIST) pf macros)) ∧
    (macros ≠ [] →
      flagsSubset ActionFlags.SETSYMLIST p.offered_actions = false →
      (p.write_to (.negotiate v af pf macros)).result = .error .valueError) := by
  intro p v af pf macros hph hresp
  have hcond : p.phase = Phase.negotiating ∧ p.response_expected = true :=
    ⟨hph, hresp⟩
  rw [FilterProtocol.write_to]
  rw [if_pos hcond]
  refine ⟨?_, ?_, ?_, ?_⟩
  · intro hbad
    have hfail : (flagsSubset
        (if macros.isEmpty then af else af ||| ActionFlags.SETSYMLIST)
        p.offered_actions &&
      flagsSubset pf p.offered_protocol) = false := by
      rcases hbad with h1 | h2
      · match he : macros.isEmpty with
        | true =>
          rw [if_pos rfl, h1]
          rfl
        | false =>
          rw [if_neg (by simp)]
          match hs : flagsSubset (af ||| ActionFlags.SETSYMLIST)
              p.offered_actions with
          | false => rfl
          | true => rw [flagsSubset_or_left hs] at h1; exact absurd h1 (by simp)
      · rw [h2, Bool.and_false]
    rw [if_neg (by rw [hfail]; simp)]
  · intro hne
    have he : macros.isEmpty = false := by
      match hh : macros.isEmpty with
      | false => rfl
      | true => exact absurd (List.isEmpty_iff.mp hh) hne
    by_cases hsub : (flagsSubset
        (if macros.isEmpty then af else af ||| ActionFlags.SETSYMLIST)
        p.offered_actions &&
      flagsSubset pf p.offered_protocol) = true
    · rw [if_pos hsub]
      simp [he]
    · rw [if_neg hsub]
      simp [he]
  · intro p' out hne hok
    have he : macros.isEmpty = false := by
      match hh : macros.isEmpty with
      | false => rfl
      | true => exact absurd (List.isEmpty_iff.mp hh) hne
    by_cases hsub : (flagsSubset
        (if macros.isEmpty then af else af ||| ActionFlags.SETSYMLIST)
        p.offered_actions &&
      flagsSubset pf p.offered_protocol) = true
    · rw [if_pos hsub] at hok
      simp only [Except.ok.injEq, Prod.mk.injEq] at hok
      obtain ⟨rfl, rfl⟩ := hok
      rw [he, if_neg (by simp)]
      exact ⟨hasFlag_or_setsymlist af, rfl⟩
    · rw [if_neg hsub] at hok
      simp at hok
  · intro hne hsym
    have he : macros.isEmpty = false := by
      match hh : macros.isEmpty with
      | false => rfl
      | true => exact absurd (List.isEmpty_iff.mp hh) hne
    have hfail : (flagsSubset
        (if macros.isEmpty then af else af ||| ActionFlags.SETSYMLIST)
        p.offered_actions &&
      flagsSubset pf p.offered_protocol) = false := by
      rw [he, if_neg (by simp)]
      match hs : flagsSubset (af ||| ActionFlags.SETSYMLIST)
          p.offered_actions with
      | false => rfl
      | true => rw [flagsSubset_or_right hs] at hsym; exact absurd hsym (by simp)
    rw [if_neg (by rw [hfail]; simp)]

/-- A fresh session that has just read a Negotiate event offering the given
flags. -/
def offeredSession (acts opts : Nat) : FilterProtocol :=
  stepRead (FilterProtocol.new false) (Message.negotiate 6 acts opts []).pack

/-- Witness for C3 at concrete inputs: requesting a protocol flag the MTA
did not offer raises ValueError; a reply with a non-empty macro map warns;
and with SETSYMLIST not offered the same reply raises ValueError. -/
theorem c3_negotiate_validation_witness :
    ((offeredSession ALL_ACTIONS ALL_PROTOCOL).write_to
        (.negotiate 6 0 ProtocolFlags.MAX_DATA_SIZE_256K [])).result =
      .error .valueError ∧
    ((offeredSession ALL_ACTIONS ALL_PROTOCOL).write_to
        (.negotiate 6 0 ALL_PROTOCOL [(0, [115, 112, 97, 109])])).warned = true ∧
    ((offeredSession 0xff ALL_PROTOCOL).write_to
        (.negotiate 6 0 ALL_PROTOCOL [(0, [115, 112, 97, 109])])).result =
      .error .valueError := by
  refine ⟨?_, ?_, ?_⟩
  · exact (c3_negotiate_validation (offeredSession ALL_ACTIONS ALL_PROTOCOL)
      6 0 ProtocolFlags.MAX_DATA_SIZE_256K [] (by decide) (by decide)).1
      (Or.inr (by decide))
  · exact (c3_negotiate_validation (offeredSession ALL_ACTIONS ALL_PROTOCOL)
      6 0 ALL_PROTOCOL [(0, [115, 112, 97, 109])] (by decide) (by decide)).2.1
      (by decide)
  · exact (c3_negotiate_validation (offeredSession 0xff ALL_PROTOCOL)
      6 0 ALL_PROTOCOL [(0, [115, 112, 97, 109])] (by decide)
      (by decide)).2.2.2 (by decide) (by decide)

/-- Claim C4: a modification message is written successfully exactly when
the session phase is PostEOM and its ActionFlag is negotiated, raising
UnexpectedMessage otherwise; a successful modification leaves the state
unchanged, so any list of permitted modifications can be written in
PostEOM. -/
theorem c4_modifications :
    (∀ (p : FilterProtocol) (m : Message), isModification m = true →
      ((p.write_to m).result = .ok (p, Message.pack m) ↔
        p.phase = .postEom ∧ flagsSubset (modFlag m) p.action_flags = true) ∧
      (¬(p.phase = .postEom ∧ flagsSubset (modFlag m) p.action_flags = true) →
        (p.write_to m).result = .error .unexpectedMessage)) ∧
    (∀ (p : FilterProtocol) (ms : List Message), p.phase = .postEom →
      (∀ m' ∈ ms, isModification m' = true ∧
        flagsSubset (modFlag m') p.action_flags = true) →
      writeSeq p ms = .ok p) := by
  constructor
  · intro p m hm
    rw [write_to_modification p m hm]
    by_cases hc : p.phase = Phase.postEom ∧
        flagsSubset (modFlag m) p.action_flags = true
    · rw [if_pos hc]
      exact ⟨⟨fun _ => hc, fun _ => rfl⟩, fun hn => absurd hc hn⟩
    · rw [if_neg hc]
      refine ⟨⟨fun h => ?_, fun h => absurd h hc⟩, fun _ => rfl⟩
      simp at h
  · intro p ms hph
    induction ms with
    | nil => intro _; rfl
    | cons m' ms ih =>
      intro hall
      obtain ⟨hm, hf⟩ := hall m' (by simp)
      rw [writeSeq, write_to_modification p m' hm, if_pos ⟨hph, hf⟩]
      exact ih (fun x hx => hall x (by simp [hx]))

/-- A session in the PostEOM phase with everything negotiated: the full
offer is accepted, a Connect event is answered with Continue, and
EndOfMessage is read. -/
def postEomSession : FilterProtocol :=
  stepRead (stepWrite (stepRead (negotiatedSession ALL_ACTIONS ALL_PROTOCOL)
    exConnectFrame) .continueMsg) exEomFrame

/-- A PostEOM session that negotiated only ADD_HEADERS. -/
def postEomAddOnly : FilterProtocol :=
  stepRead (stepWrite (stepRead (negotiatedSession ActionFlags.ADD_HEADERS 0)
    exConnectFrame) .continueMsg) exEomFrame

/-- Witness for C4 at concrete inputs: in the PostEOM session with only
ADD_HEADERS negotiated, two AddHeader writes succeed in sequence while
ReplaceBody raises UnexpectedMessage, and before PostEOM an AddHeader
raises UnexpectedMessage. -/
theorem c4_modifications_witness :
    writeSeq postEomAddOnly
      [.addHeader [116, 101, 115, 116] [115, 112, 97, 109],
        .addHeader [120, 45, 116, 101, 115, 116] [104, 97, 109]] =
      .ok postEomAddOnly ∧
    (postEomAddOnly.write_to (.replaceBody [])).result =
      .error .unexpectedMessage ∧
    ((stepRead (negotiatedSession ActionFlags.ADD_HEADERS 0)
        exConnectFrame).write_to
      (.addHeader [116] [115])).result = .error .unexpectedMessage := by
  refine ⟨?_, ?_, ?_⟩
  · exact c4_modifications.2 postEomAddOnly _ (by decide) (by decide)
  · exact (c4_modifications.1 postEomAddOnly (.replaceBody []) (by decide)).2
      (by decide)
  · exact (c4_modifications.1 _ (.addHeader [116] [115]) (by decide)).2
      (by decide)
/-- A session with SKIP negotiated that has read a Body event. -/
def bodySkipSession : FilterProtocol :=
  stepRead (negotiatedSession 0 ProtocolFlags.SKIP) exBodyFrame

/-- A session with nothing negotiated that has read a Body event. -/
def bodyNoSkipSession : FilterProtocol :=
  stepRead (negotiatedSession 0 0) exBodyFrame

/-- A session with SKIP negotiated that has read a Connect event. -/
def connectSkipSession : FilterProtocol :=
  stepRead (negotiatedSession 0 ProtocolFlags.SKIP) exConnectFrame

/-- Counterexample to C5 as stated: in a session with SKIP negotiated and
a response owed — but to a Connect event, not a Body — `write_to(Skip)`
raises InvalidMessage, not UnexpectedMessage, so "in every other case
write_to(Skip) raises UnexpectedMessage" is false. -/
theorem c5_skip_other_case_counterexample :
    connectSkipSession.skip = true ∧
    connectSkipSession.response_expected = true ∧
    connectSkipSession.currentIsBody = false ∧
    (connectSkipSession.write_to .skip).result = .error .invalidMessage ∧
    ProtoError.invalidMessage ≠ ProtoError.unexpectedMessage := by
  refine ⟨by decide, by decide, by decide, by decide, by decide⟩

/-- Claim C5 (amended): outside PostEOM, `write_to(Skip)` succeeds exactly
when SKIP was negotiated, a response is expected and the current event is a
Body frame; with no response owed, or with a Body event current but SKIP
not negotiated, it raises UnexpectedMessage; with a response owed to a
non-Body event it raises InvalidMessage. -/
theorem c5_skip_requirements :
    (∀ p : FilterProtocol, p.phase ≠ .postEom →
      ((p.write_to .skip).result =
          .ok ({ p with response_expected := false, current := none },
            Message.pack .skip) ↔
        p.skip = true ∧ p.response_expected = true ∧
          p.currentIsBody = true)) ∧
    (∀ p : FilterProtocol, p.response_expected = false →
      (p.write_to .skip).result = .error .unexpectedMessage) ∧
    (∀ p : FilterProtocol, p.phase ≠ .postEom → p.response_expected = true →
      p.currentIsBody = true → p.skip = false →
      (p.write_to .skip).result = .error .unexpectedMessage) ∧
    (∀ p : FilterProtocol, p.phase ≠ .postEom → p.response_expected = true →
      p.currentIsBody = false →
      (p.write_to .skip).result = .error .invalidMessage) := by
  refine ⟨?_, ?_, ?_, ?_⟩
  · intro p hph
    rw [FilterProtocol.write_to, if_neg hph]
    match hr : p.response_expected with
    | false => simp
    | true =>
      match hbody : p.currentIsBody with
      | false => simp
      | true =>
        match hskip : p.skip with
        | false => simp
        | true => simp
  · intro p hr
    rw [FilterProtocol.write_to]
    by_cases hph : p.phase = Phase.postEom
    · rw [if_pos hph]
    · rw [if_neg hph, if_pos (by simp [hr])]
  · intro p hph hr hbody hskip
    rw [FilterProtocol.write_to, if_neg hph, if_neg (by simp [hr]),
      if_neg (by simp [hbody]), if_pos (by simp [hskip])]
  · intro p hph hr hbody
    rw [FilterProtocol.write_to, if_neg hph, if_neg (by simp [hr]),
      if_pos (by simp [hbody])]

/-- Witness for C5 (amended) at concrete inputs: with SKIP negotiated and
a Body event current, Skip succeeds; with no Body event read yet it raises
UnexpectedMessage; with Body current but SKIP not negotiated it raises
UnexpectedMessage. -/
theorem c5_skip_requirements_witness :
    (bodySkipSession.write_to .skip).result =
      .ok ({ bodySkipSession with
        response_expected := false
        current := none }, Message.pack .skip) ∧
    ((negotiatedSession 0 ProtocolFlags.SKIP).write_to .skip).result =
      .error .unexpectedMessage ∧
    (bodyNoSkipSession.write_to .skip).result = .error .unexpectedMessage := by
  refine ⟨?_, ?_, ?_⟩
  · exact (c5_skip_requirements.1 bodySkipSession (by decide)).mpr
      ⟨by decide, by decide, by decide⟩
  · exact c5_skip_requirements.2.1 (negotiatedSession 0 ProtocolFlags.SKIP)
      (by decide)
  · exact c5_skip_requirements.2.2.1 bodyNoSkipSession (by decide) (by decide)
      (by decide) (by decide)

/-- Counterexample to C6 as stated: in a PostEOM session (with a
modification such as AddHeader packed without error), writing Skip raises
UnexpectedMessage, not InvalidMessage. -/
theorem c6_skip_post_eom_counterexample :
    (postEomSession.write_to
        (.addHeader [116, 101, 115, 116] [115, 112, 97, 109])).result =
      .ok (postEomSession,
        Message.pack (.addHeader [116, 101, 115, 116] [115, 112, 97, 109])) ∧
    postEomSession.phase = .postEom ∧
    (postEomSession.write_to .skip).result = .error .unexpectedMessage ∧
    ProtoError.unexpectedMessage ≠ ProtoError.invalidMessage := by
  refine ⟨by decide, by decide, by decide, by decide⟩

/-- Claim C6 (amended): in every session in the PostEOM phase, writing
Skip raises UnexpectedMessage (Skip is not a message that may follow
EndOfMessage). -/
theorem c6_skip_after_eom :
    ∀ p : FilterProtocol, p.phase = .postEom →
      (p.write_to .skip).result = .error .unexpectedMessage := by
  intro p hph
  rw [FilterProtocol.write_to, if_pos hph]

/-- Witness for C6 (amended) at the concrete PostEOM session. -/
theorem c6_skip_after_eom_witness :
    (postEomSession.write_to .skip).result = .error .unexpectedMessage :=
  c6_skip_after_eom postEomSession (by decide)
/-- Claim C9: the packed Connect payload is the NUL-terminated wire
hostname (the hostname itself when it is all-ASCII, its IDNA-encoded form
otherwise) followed by the family block — bare `U` with no port and no
address bytes, `L` with port bytes `00 00` and the NUL-terminated path,
`4`/`6` with the `u16` big-endian port and the NUL-terminated textual
address — and unpacking the packed frame restores the unicode hostname,
the address and the port. -/
theorem c9_connect_encoding :
    ∀ (h : List Nat) (addr : ConnAddr) (port : Nat),
      legalHost h = true → legalAddr addr port = true →
      (Message.connect h addr port).payload.length + 1 < 2 ^ 32 →
      ((Message.connect h addr port).payload = idnaEncode h ++ 0 ::
        (match addr with
          | .noAddr => [0x55]
          | .unix path => 0x4c :: 0 :: 0 :: (path ++ [0])
          | .ip4 a => 0x34 :: (beBytes2 port ++ (a ++ [0]))
          | .ip6 a => 0x36 :: (beBytes2 port ++ (a ++ [0])))) ∧
      (allAscii h = true → idnaEncode h = h) ∧
      Message.unpack (Message.connect h addr port).pack =
        .ok (.connect h addr port,
          5 + (Message.connect h addr port).payload.length) := by
  intro h addr port hh ha hfit
  refine ⟨?_, fun hascii => idnaEncode_ascii hascii, ?_⟩
  · rw [Message.payload]
    match addr with
    | .noAddr => rfl
    | .unix path =>
      obtain rfl : port = 0 := by
        simp only [legalAddr, Bool.and_eq_true, beq_iff_eq] at ha
        exact ha.2
      rfl
    | .ip4 a => rfl
    | .ip6 a => rfl
  · refine unpack_pack _ ?_
    simp only [Message.legalB, Message.legalFields, Bool.and_eq_true,
      decide_eq_true_eq]
    exact ⟨hfit, hh, ha⟩

/-- Witness for C9 at a concrete input: the non-ASCII hostname тест with
an IPv4 address and port 25 (as in the tests' Connect vectors). -/
theorem c9_connect_encoding_witness :
    (Message.connect [1090, 1077, 1089, 1090]
        (.ip4 [49, 48, 46, 48, 46, 48, 46, 49]) 25).payload =
      idnaEncode [1090, 1077, 1089, 1090] ++ 0 ::
        (0x34 :: (beBytes2 25 ++ ([49, 48, 46, 48, 46, 48, 46, 49] ++ [0]))) ∧
    Message.unpack exConnect.pack =
      .ok (exConnect, 5 + exConnect.payload.length) := by
  constructor
  · exact (c9_connect_encoding [1090, 1077, 1089, 1090]
      (.ip4 [49, 48, 46, 48, 46, 48, 46, 49]) 25 (by decide) (by decide)
      (by decide)).1
  · exact (c9_connect_encoding [1090, 1077, 1089, 1090]
      (.ip4 [49, 48, 46, 48, 46, 48, 46, 49]) 25 (by decide) (by decide)
      (by decide)).2.2
end Kilter
